import Mathlib

/-!
# Verification of the BER/DER reader core and CMS layer

Shallow embedding of the `der` reader substrate (header decoding, the BER
indefinite-length scanner, EOC handling, nested bounded reads) and of the CMS
`ContentInfo` convenience constructors, translated from `src/der/src/reader.rs`,
`src/der/src/header.rs`, `src/cms/src/content_info.rs` and
`src/cms/src/signed_data.rs`.

Bytes are modelled as `Nat` (values `0 ≤ b ≤ 255` on well-formed inputs),
machine lengths as `Nat` with the implementation maximum `2 ^ 32 - 1` checked
at the source's checked additions/subtractions.  The reader is a cursor
(`Nat` position) over an immutable byte list carried in a context `Ctx`
together with the `is_parsing_ber` flag; reader operations live in the monad
`DecM` (state = cursor, errors carry the final cursor as well, mirroring the
in-place mutation of the Rust reader).  The recursive indefinite-length
scanner takes an explicit fuel argument; fuel exhaustion is the distinguished
error kind `outOfFuel`, which never occurs for the runs analysed below (every
theorem either supplies sufficient fuel explicitly or is conditioned on a
non-`outOfFuel` outcome).

Parts of the repository that the claims depend on but whose sources are not
present (the slice reader primitives, tag/length codecs, `ContextSpecific`,
`SetOfVec`, the `Encode` plumbing) are modelled from the specification; each
such definition carries a doc comment starting with `Modelled from the spec:`.
-/

/-- ASN.1 tag: class (0 = universal, 1 = application, 2 = context-specific,
3 = private), constructed flag, tag number.  Mirrors `der::Tag` as described
in the spec's data model (§3). -/
structure Tag where
  tagClass : Nat
  constructed : Bool
  number : Nat
deriving DecidableEq, Repr

/-- The `SEQUENCE` tag: universal, constructed, number 16. -/
def Tag.sequenceTag : Tag := ⟨0, true, 16⟩

/-- Error kinds of the codec (spec §7 table, plus `reader` from the
`read_slice` documentation and `indefiniteLength` for the
`IndefiniteLength → Length` conversion failure; `outOfFuel` is the
embedding's fuel-exhaustion marker and corresponds to no source error). -/
inductive ErrorKind where
  | incomplete
  | overflow
  | overlength
  | length (tag : Tag)
  | unexpectedTag (expected : Option Tag) (actual : Tag)
  | endOfContent
  | trailingData (decoded remaining : Nat)
  | recursionLimitExceeded
  | duplicateElement
  | value (tag : Tag)
  | indefiniteLength
  | reader
  | outOfFuel
deriving DecidableEq, Repr

/-- Is this kind an `UnexpectedTag` error? -/
def ErrorKind.isUnexpectedTag : ErrorKind → Bool
  | .unexpectedTag _ _ => true
  | _ => false

/-- An error: a kind together with the position annotation
(spec §6: "error values carry a kind and a position within the original
input"). -/
structure Error where
  kind : ErrorKind
  position : Option Nat
deriving DecidableEq, Repr

/-- `ErrorKind::at(position)`: build an error annotated with a position. -/
def ErrorKind.at (k : ErrorKind) (p : Nat) : Error := ⟨k, some p⟩

/-- `Error::from(ErrorKind)` (`.into()` in the source): no position. -/
def ErrorKind.toError (k : ErrorKind) : Error := ⟨k, none⟩

/-- Modelled from the spec: `Error::nested` annotates an error with the
reader's current position (spec §4.2: "error annotation with the current
position"; the implementation lives in the absent `error.rs`). -/
def Error.nestedAt (e : Error) (p : Nat) : Error := ⟨e.kind, some p⟩

/-- Result of running a reader computation: a value or an error, together
with the reader's final cursor position (the Rust reader mutates its cursor
in place, so the cursor survives errors). -/
inductive PResult (α : Type) where
  | ok : α → Nat → PResult α
  | err : Error → Nat → PResult α
deriving Repr

instance [DecidableEq α] : DecidableEq (PResult α) := fun a b =>
  match a, b with
  | .ok x p, .ok y q =>
    if h : x = y ∧ p = q then .isTrue (by rw [h.1, h.2])
    else .isFalse (by intro hc; cases hc; exact h ⟨rfl, rfl⟩)
  | .ok _ _, .err _ _ => .isFalse (by intro hc; cases hc)
  | .err _ _, .ok _ _ => .isFalse (by intro hc; cases hc)
  | .err e p, .err f q =>
    if h : e = f ∧ p = q then .isTrue (by rw [h.1, h.2])
    else .isFalse (by intro hc; cases hc; exact h ⟨rfl, rfl⟩)

/-- Final cursor position of a result. -/
def PResult.pos : PResult α → Nat
  | .ok _ p => p
  | .err _ p => p

/-- Reader computations: cursor in, result (with cursor) out. -/
def DecM (α : Type) : Type := Nat → PResult α

/-- Sequencing of reader computations; errors short-circuit but keep the
cursor they stopped at. -/
def DecM.bind (x : DecM α) (f : α → DecM β) : DecM β := fun p =>
  match x p with
  | .ok a p' => f a p'
  | .err e p' => .err e p'

/-- A computation that returns `a` without moving the cursor. -/
def DecM.pure (a : α) : DecM α := fun p => .ok a p

instance : Monad DecM where
  pure := DecM.pure
  bind := DecM.bind

/-- Throw an error, keeping the cursor. -/
def DecM.throw (e : Error) : DecM α := fun p => .err e p

/-- Read the cursor (`Reader::position`). -/
def DecM.getPos : DecM Nat := fun p => .ok p p

/-- Set the cursor. -/
def DecM.setPos (q : Nat) : DecM Unit := fun _ => .ok () q

/-- `Reader::error(kind)` = `kind.at(self.position())`, thrown. -/
def DecM.throwAt (k : ErrorKind) : DecM α := fun p => .err (k.at p) p

@[simp] theorem DecM.bind_apply (x : DecM α) (f : α → DecM β) (p : Nat) :
    (x >>= f) p = match x p with
      | .ok a p' => f a p'
      | .err e p' => .err e p' := rfl

@[simp] theorem DecM.pure_apply (a : α) (p : Nat) :
    (Pure.pure a : DecM α) p = .ok a p := rfl

theorem DecM.bind_ok_iff {x : DecM α} {f : α → DecM β} {p q : Nat} {b : β} :
    (x >>= f) p = .ok b q ↔ ∃ a r, x p = .ok a r ∧ f a r = .ok b q := by
  constructor
  · intro h
    simp only [bind_apply] at h
    cases hx : x p with
    | ok a r => rw [hx] at h; exact ⟨a, r, rfl, h⟩
    | err e r => rw [hx] at h; cases h
  · rintro ⟨a, r, hx, hf⟩
    simp only [bind_apply, hx, hf]

theorem DecM.bind_err_iff {x : DecM α} {f : α → DecM β} {p q : Nat} {e : Error} :
    (x >>= f) p = .err e q ↔
      x p = .err e q ∨ ∃ a r, x p = .ok a r ∧ f a r = .err e q := by
  constructor
  · intro h
    simp only [bind_apply] at h
    cases hx : x p with
    | ok a r => rw [hx] at h; exact .inr ⟨a, r, rfl, h⟩
    | err f r => rw [hx] at h; cases h; exact .inl rfl
  · rintro (hx | ⟨a, r, hx, hf⟩)
    · simp only [bind_apply, hx]
    · simp only [bind_apply, hx, hf]

/-- The reader's immutable part: the borrowed input slice and the
`is_parsing_ber` flag (spec §4.2).  The cursor is the `DecM` state. -/
structure Ctx where
  data : List Nat
  ber : Bool
deriving DecidableEq, Repr

namespace Reader

/-- `Reader::input_len`. -/
def input_len (c : Ctx) : Nat := c.data.length

/-- Modelled from the spec: `SliceReader::peek_byte` — the byte at the
cursor, if any, without moving the cursor (`reader.rs` declares the trait
method; the slice implementation is absent). -/
def peek_byte (c : Ctx) : DecM (Option Nat) := fun p => .ok c.data[p]? p

/-- `Reader::remaining_len` = `input_len - position` (saturating). -/
def remaining_len (c : Ctx) : DecM Nat := fun p => .ok (c.data.length - p) p

/-- `Reader::is_finished`: all input consumed. -/
def is_finished (c : Ctx) : DecM Bool := fun p => .ok (decide (c.data.length - p = 0)) p

/-- Modelled from the spec: `SliceReader::read_slice` — borrow `len` bytes
at the cursor and advance, or fail `Incomplete` without moving
(`reader.rs` documents exactly this contract; the implementation is
absent). -/
def read_slice (c : Ctx) (len : Nat) : DecM (List Nat) := fun p =>
  if p + len ≤ c.data.length then .ok ((c.data.drop p).take len) (p + len)
  else .err ⟨.incomplete, some p⟩ p

/-- `Reader::read_byte` via `read_slice 1`. -/
def read_byte (c : Ctx) : DecM Nat := do
  let bs ← read_slice c 1
  pure (bs.headD 0)

/-- Modelled from the spec: `SliceReader::rewind` — "Rewind cursor by a given
offset (`self.position -= offset`)"; fails if the offset exceeds the current
position. -/
def rewind (off : Nat) : DecM Unit := fun p =>
  if off ≤ p then .ok () (p - off) else .err ⟨.reader, some p⟩ p

/-- Modelled from the spec: `SliceReader::peek_eoc` — "Peek next two bytes for
an end-of-content marker": true iff the next two bytes exist and are
`00 00`; never moves the cursor. -/
def peek_eoc (c : Ctx) : DecM Bool := fun p =>
  .ok (decide ((c.data.drop p).take 2 = [0, 0])) p

end Reader

/-! ## Tag, length and header codecs -/

/-- Read base-128 continuation bytes of a multi-byte tag number: keep reading
while the high bit is set.  The fuel is only a structural bound; `read_byte`
fails with `Incomplete` before the fuel (input length + 1) can run out. -/
def Tag.readBase128 (c : Ctx) : Nat → Nat → DecM Nat
  | 0, _ => DecM.throw ⟨.outOfFuel, none⟩
  | fuel + 1, acc => do
    let b ← Reader.read_byte c
    if b ≥ 128 then Tag.readBase128 c fuel (acc * 128 + (b - 128))
    else pure (acc * 128 + b)

/-- Modelled from the spec: tag decoding (§4.1) — "classifies the first byte
into class/constructed/number; the multi-byte number form concatenates 7-bit
groups from each continuation byte" (the tag codec source is absent). -/
def Tag.decode (c : Ctx) : DecM Tag := do
  let b ← Reader.read_byte c
  let cls := b / 64
  let cons := decide (b / 32 % 2 = 1)
  let low := b % 32
  if low = 31 then
    let n ← Tag.readBase128 c (c.data.length + 1) 0
    pure ⟨cls, cons, n⟩
  else
    pure ⟨cls, cons, low⟩

/-- Big-endian base-128 groups of a tag number (7 bits per group). -/
def Tag.base128Groups : Nat → List Nat
  | 0 => []
  | n + 1 => Tag.base128Groups ((n + 1) / 128) ++ [(n + 1) % 128]
decreasing_by exact Nat.div_lt_self (Nat.succ_pos n) (by omega)

/-- Modelled from the spec: encoded length of a tag — one byte for numbers
≤ 30, else an initial byte plus one byte per 7-bit group. -/
def Tag.encodedLen (t : Tag) : Nat :=
  if t.number ≤ 30 then 1 else 1 + (Tag.base128Groups t.number).length

/-- Modelled from the spec: `Tag::assert_eq` — succeed iff the tag equals the
expected one, else an `UnexpectedTag` error naming both. -/
def Tag.assertEq (t expected : Tag) : DecM Unit :=
  if t = expected then pure ()
  else DecM.throw ⟨.unexpectedTag (some expected) t, none⟩

/-- Modelled from the spec: tag ordering for `DerOrd` — tags are compared by
their encoded bytes (§4.4 canonical-ordering discussion); never fails. -/
def Tag.encodeBytes (t : Tag) : List Nat :=
  let base := t.tagClass * 64 + (if t.constructed then 32 else 0)
  if t.number ≤ 30 then [base + t.number]
  else
    let gs := Tag.base128Groups t.number
    (base + 31) :: (gs.dropLast.map (· + 128) ++ gs.drop (gs.length - 1))

/-- Lexicographic comparison on byte lists. -/
def lexCompare : List Nat → List Nat → Ordering
  | [], [] => .eq
  | [], _ :: _ => .lt
  | _ :: _, [] => .gt
  | a :: as, b :: bs =>
    match compare a b with
    | .eq => lexCompare as bs
    | o => o

/-- Modelled from the spec: `Tag::der_cmp` — compares encoded tag bytes,
never failing. -/
def Tag.derCmp (a b : Tag) : Except Error Ordering :=
  .ok (lexCompare a.encodeBytes b.encodeBytes)

/-- `der::IndefiniteLength`: a definite length or the indefinite sentinel
(spec §3). -/
inductive IndefiniteLength where
  | definite (n : Nat)
  | indefinite
deriving DecidableEq, Repr

/-- `IndefiniteLength::is_definite`. -/
def IndefiniteLength.isDefinite : IndefiniteLength → Bool
  | .definite _ => true
  | .indefinite => false

/-- `IndefiniteLength::is_indefinite`. -/
def IndefiniteLength.isIndefinite : IndefiniteLength → Bool
  | .definite _ => false
  | .indefinite => true

/-- Implementation maximum for lengths: `2 ^ 32 - 1` (spec §3/§6: long-form
lengths go up to `2^32 − 1`, and `2^32` fails `Overflow`). -/
def maxLength : Nat := 2 ^ 32 - 1

/-- Checked length addition (`impl Add for Length`): `Overflow` beyond the
implementation maximum.  The error carries no position (`.into()`). -/
def addLength (a b : Nat) : DecM Nat :=
  if a + b ≤ maxLength then pure (a + b) else DecM.throw ⟨.overflow, none⟩

/-- Checked length subtraction (`impl Sub for Length`): `Overflow` on
underflow. -/
def subLength (a b : Nat) : DecM Nat :=
  if b ≤ a then pure (a - b) else DecM.throw ⟨.overflow, none⟩

/-- Big-endian accumulation of length bytes. -/
def beBytesToNat (bs : List Nat) : Nat := bs.foldl (fun a x => a * 256 + x) 0

/-- Modelled from the spec: length decoding (§4.1) —
`0x00–0x7F` short definite, `0x80` the indefinite sentinel, `0x81`–`0x84` a
long form with that many big-endian bytes, any other first byte an
`Overlength` error (the length codec source is absent). -/
def IndefiniteLength.decode (c : Ctx) : DecM IndefiniteLength := do
  let b ← Reader.read_byte c
  if b ≤ 0x7F then pure (.definite b)
  else if b = 0x80 then pure .indefinite
  else if b ≤ 0x84 then do
    let bs ← Reader.read_slice c (b - 0x80)
    pure (.definite (beBytesToNat bs))
  else DecM.throwAt .overlength

/-- Modelled from the spec: `Length::try_from(IndefiniteLength)` — a definite
length converts, the sentinel is an error. -/
def IndefiniteLength.toLength : IndefiniteLength → Except Error Nat
  | .definite n => .ok n
  | .indefinite => .error ⟨.indefiniteLength, none⟩

/-- Shortest-form encoded size of a definite length (spec §4.1: encoding
"producing the shortest form"). -/
def lengthEncodedLen (n : Nat) : Nat :=
  if n ≤ 0x7F then 1
  else if n ≤ 0xFF then 2
  else if n ≤ 0xFFFF then 3
  else if n ≤ 0xFFFFFF then 4
  else 5

/-- Encoded size of an `IndefiniteLength` (the sentinel is one byte). -/
def IndefiniteLength.encodedLen : IndefiniteLength → Nat
  | .definite n => lengthEncodedLen n
  | .indefinite => 1

/-- `der::Header`: tag plus length (src `header.rs`). -/
structure Header where
  tag : Tag
  length : IndefiniteLength
deriving DecidableEq, Repr

/-- The `map_err` closure of `<Header as Decode>::decode`: decode the
length, replacing an `Overlength` error by `Length { tag }` (no position,
`.into()`) and propagating any other error unchanged. -/
def Header.decodeLength (c : Ctx) (tag : Tag) : DecM IndefiniteLength :=
  fun p =>
    match IndefiniteLength.decode c p with
    | .ok l p' => .ok l p'
    | .err e p' =>
      if e.kind = .overlength then .err ⟨.length tag, none⟩ p'
      else .err e p'

/-- `<Header as Decode>::decode` (src `header.rs` lines 31–45): decode the
tag, then the length with the `Overlength` replacement. -/
def Header.decode (c : Ctx) : DecM Header := do
  let tag ← Tag.decode c
  let length ← Header.decodeLength c tag
  pure ⟨tag, length⟩

/-- `Header::encoded_len` = tag size + length size (src `header.rs`). -/
def Header.encodedLen (h : Header) : Nat :=
  h.tag.encodedLen + h.length.encodedLen

/-- `Length::der_cmp`: definite lengths order numerically (spec §3: "a
definite value orders by its numeric length"). -/
def lengthDerCmp (a b : Nat) : Except Error Ordering := .ok (compare a b)

/-- `<Header as DerOrd>::der_cmp` (src `header.rs` lines 58–67): compare
tags; on equality convert both lengths to definite `Length` (failing on the
indefinite sentinel) and compare numerically. -/
def Header.derCmp (a b : Header) : Except Error Ordering :=
  match Tag.derCmp a.tag b.tag with
  | .error e => .error e
  | .ok .eq =>
    match a.length.toLength with
    | .error e => .error e
    | .ok la =>
      match b.length.toLength with
      | .error e => .error e
      | .ok lb => lengthDerCmp la lb
  | .ok o => .ok o

/-- Modelled from the spec: `SliceReader::peek_header` — decode a header at
the cursor without moving it ("Does not modify the decoder's state"). -/
def Reader.peek_header (c : Ctx) : DecM Header := fun p =>
  match Header.decode c p with
  | .ok h _ => .ok h p
  | .err e _ => .err e p

/-- `Reader::read_eoc` (src `reader.rs` lines 174–189): if the next byte is
zero, read two bytes and require `00 00` (else `EndOfContent` at the
position after the read); otherwise leave the cursor and report `false`. -/
def Reader.read_eoc (c : Ctx) : DecM Bool := do
  let next ← Reader.peek_byte c
  if next = some 0 then do
    let eoc ← Reader.read_slice c 2
    if eoc ≠ [0, 0] then DecM.throwAt .endOfContent
    else pure true
  else pure false

/-! ## The BER indefinite-length scanner (src `reader.rs` lines 19–25 and
227–285).  The four trait methods are mutually recursive; the embedding
gives them a common fuel argument, decremented at every loop iteration and
recursive call. -/

/-- Length of end-of-content (eoc) markers (src `reader.rs` line 21). -/
def EOC_LENGTH : Nat := 2

/-- Recursive calls limit for parsing indefinite length values
(src `reader.rs` line 25). -/
def INDEFINITE_LENGTH_PARSER_RECURSION_MAX : Nat := 1024

mutual

/-- `Reader::indefinite_value_length` (src `reader.rs` lines 233–246, minus
the debug prints): remember the start position, run `parse_to_end(0)`, let
`L` be the distance travelled, rewind by `L`, and return `L + EOC_LENGTH`. -/
def Reader.indefinite_value_length (c : Ctx) : Nat → DecM Nat
  | 0 => DecM.throw ⟨.outOfFuel, none⟩
  | fuel + 1 => do
    let start ← DecM.getPos
    Reader.indefinite_value_length_parse_to_end c fuel 0
    let p ← DecM.getPos
    let length := p - start
    Reader.rewind length
    addLength length EOC_LENGTH

/-- `Reader::indefinite_value_length_parse_to_end` (src `reader.rs` lines
250–284, minus the debug prints): fail `RecursionLimitExceeded` past the
recursion limit, then loop over the TLVs of the value. -/
def Reader.indefinite_value_length_parse_to_end (c : Ctx) :
    Nat → Nat → DecM Unit
  | 0, _ => DecM.throw ⟨.outOfFuel, none⟩
  | fuel + 1, recursion_depth =>
    if recursion_depth > INDEFINITE_LENGTH_PARSER_RECURSION_MAX then
      DecM.throwAt .recursionLimitExceeded
    else Reader.parse_to_end_loop c fuel recursion_depth

/-- The `loop` body of `indefinite_value_length_parse_to_end`: peek a
header; an indefinite header is consumed and recursed into, with the
following EOC required; a definite TLV is skipped via `tlv_bytes`; exit when
an EOC marker follows or the input is exhausted. -/
def Reader.parse_to_end_loop (c : Ctx) : Nat → Nat → DecM Unit
  | 0, _ => DecM.throw ⟨.outOfFuel, none⟩
  | fuel + 1, recursion_depth => do
    let header ← Reader.peek_header c
    if header.length.isIndefinite then do
      let _ ← Header.decode c
      Reader.indefinite_value_length_parse_to_end c fuel (recursion_depth + 1)
      let eoc ← Reader.read_eoc c
      if !eoc then DecM.throwAt .endOfContent else pure ()
    else do
      let _ ← Reader.tlv_bytes c fuel
      pure ()
    let b ← Reader.peek_eoc c
    let fin ← Reader.is_finished c
    if b || fin then pure ()
    else Reader.parse_to_end_loop c fuel recursion_depth

/-- `Reader::tlv_bytes` (src `reader.rs` lines 216–225): read a complete TLV
production — the  header bytes plus the value bytes, the latter obtained from
the definite length or from the scanner minus the EOC. -/
def Reader.tlv_bytes (c : Ctx) : Nat → DecM (List Nat)
  | 0 => DecM.throw ⟨.outOfFuel, none⟩
  | fuel + 1 => do
    let header ← Reader.peek_header c
    let header_len := header.encodedLen
    let value_len ←
      match header.length with
      | .definite n => pure n
      | .indefinite => do
        let l ← Reader.indefinite_value_length c fuel
        subLength l EOC_LENGTH
    let total ← addLength header_len value_len
    Reader.read_slice c total

end

/-! ## Composite reader operations (src `reader.rs`) -/

namespace Reader

/-- `Reader::finish` (src `reader.rs` lines 95–110): under BER, first
(eventually) consume EOC octets; then require the reader drained, reporting
`TrailingData { decoded, remaining }` at the current position otherwise. -/
def finish (c : Ctx) (v : α) : DecM α := do
  if c.ber then do
    let _ ← read_eoc c
    pure ()
  else pure ()
  let fin ← is_finished c
  if !fin then do
    let p ← DecM.getPos
    DecM.throw ⟨.trailingData p (c.data.length - p), some p⟩
  else pure v

/-- Run a decoder `f` over a nested reader for the window `sub`, then
`finish` it (the body of `read_nested`); the result carries the nested
reader's final cursor. -/
def runNested (sub : Ctx) (f : Ctx → DecM α) : PResult α :=
  (f sub >>= finish sub) 0

/-- `Reader::read_nested` (src `reader.rs` lines 157–164), with the
`NestedReader` modelled from the spec: "constructs a sub-reader bounded to
`len` bytes starting at the current position, calls `f` with it, then
requires the sub-reader to be drained".  The sub-reader's window is the
`len` bytes at the cursor and it inherits the BER flag; the outer cursor
advances by however much the sub-reader consumed (all of `len` on
success). -/
def read_nested (c : Ctx) (len : Nat) (f : Ctx → DecM α) : DecM α := fun p =>
  if p + len ≤ c.data.length then
    match runNested ⟨(c.data.drop p).take len, c.ber⟩ f with
    | .ok a q => .ok a (p + q)
    | .err e q => .err e (p + q)
  else .err ⟨.incomplete, some p⟩ p

/-- `Reader::sequence` (src `reader.rs` lines 199–213): decode a header,
assert the `SEQUENCE` tag, resolve the length (running the indefinite
scanner for the sentinel), and hand a nested bounded reader to `f`. -/
def sequence (c : Ctx) (fuel : Nat) (f : Ctx → DecM α) : DecM α := do
  let header ← Header.decode c
  Tag.assertEq header.tag Tag.sequenceTag
  let length ←
    match header.length with
    | .definite n => pure n
    | .indefinite => indefinite_value_length c fuel
  read_nested c length f

/-- `Reader::decode` (src `reader.rs` lines 76–85): run the primitive
decoder `td`, annotating its error with the current position; if it
succeeded and we are parsing BER, eventually consume EOC octets (an invalid
EOC read propagates its error); then return the decoded value. -/
def decode (c : Ctx) (td : DecM α) : DecM α := fun p =>
  match td p with
  | .ok a p' =>
    if c.ber then
      match read_eoc c p' with
      | .ok _ p'' => .ok a p''
      | .err e p'' => .err e p''
    else .ok a p'
  | .err e p' => .err (e.nestedAt p') p'

end Reader

/-! ## Cursor monotonicity

Every reader operation only moves the cursor forward when it succeeds; the
scanner's `rewind` moves it back exactly to where that scanner run started.
This is the invariant behind "the cursor is back at the start position". -/

/-- A reader computation never moves the cursor backwards when it
succeeds. -/
def OkMono (x : DecM α) : Prop := ∀ p a q, x p = .ok a q → p ≤ q

@[simp] theorem DecM.getPos_apply (p : Nat) : DecM.getPos p = .ok p p := rfl

theorem okMono_pure (a : α) : OkMono (Pure.pure a : DecM α) := by
  intro p b q h
  simp only [DecM.pure_apply, PResult.ok.injEq] at h
  omega

theorem okMono_throw (e : Error) : OkMono (DecM.throw e : DecM α) := by
  intro p b q h
  simp [DecM.throw] at h

theorem okMono_throwAt (k : ErrorKind) : OkMono (DecM.throwAt k : DecM α) := by
  intro p b q h
  simp [DecM.throwAt] at h

theorem okMono_getPos : OkMono DecM.getPos := by
  intro p b q h
  simp only [DecM.getPos_apply, PResult.ok.injEq] at h
  omega

theorem okMono_bind {x : DecM α} {f : α → DecM β} (hx : OkMono x)
    (hf : ∀ a, OkMono (f a)) : OkMono (x >>= f) := by
  intro p b q h
  rcases DecM.bind_ok_iff.mp h with ⟨a, r, h1, h2⟩
  exact le_trans (hx p a r h1) (hf a r b q h2)

theorem okMono_read_slice (c : Ctx) (len : Nat) :
    OkMono (Reader.read_slice c len) := by
  intro p b q h
  simp only [Reader.read_slice] at h
  split at h
  · simp only [PResult.ok.injEq] at h; omega
  · simp at h

theorem okMono_read_byte (c : Ctx) : OkMono (Reader.read_byte c) :=
  okMono_bind (okMono_read_slice c 1) fun _ => okMono_pure _

theorem okMono_peek_byte (c : Ctx) : OkMono (Reader.peek_byte c) := by
  intro p b q h
  simp only [Reader.peek_byte, PResult.ok.injEq] at h
  omega

theorem okMono_peek_eoc (c : Ctx) : OkMono (Reader.peek_eoc c) := by
  intro p b q h
  simp only [Reader.peek_eoc, PResult.ok.injEq] at h
  omega

theorem okMono_is_finished (c : Ctx) : OkMono (Reader.is_finished c) := by
  intro p b q h
  simp only [Reader.is_finished, PResult.ok.injEq] at h
  omega

theorem okMono_peek_header (c : Ctx) : OkMono (Reader.peek_header c) := by
  intro p b q h
  simp only [Reader.peek_header] at h
  split at h
  · simp only [PResult.ok.injEq] at h; omega
  · simp at h

theorem okMono_read_eoc (c : Ctx) : OkMono (Reader.read_eoc c) := by
  apply okMono_bind (okMono_peek_byte c)
  intro next
  dsimp only [Reader.read_eoc]
  split
  · apply okMono_bind (okMono_read_slice c 2)
    intro eoc
    split
    · exact okMono_throwAt _
    · exact okMono_pure _
  · exact okMono_pure _

theorem okMono_addLength (a b : Nat) : OkMono (addLength a b) := by
  unfold addLength
  split
  · exact okMono_pure _
  · exact okMono_throw _

theorem okMono_subLength (a b : Nat) : OkMono (subLength a b) := by
  unfold subLength
  split
  · exact okMono_pure _
  · exact okMono_throw _

theorem okMono_readBase128 (c : Ctx) :
    ∀ fuel acc, OkMono (Tag.readBase128 c fuel acc) := by
  intro fuel
  induction fuel with
  | zero => intro acc; exact okMono_throw _
  | succ f ih =>
    intro acc
    apply okMono_bind (okMono_read_byte c)
    intro b
    dsimp only [Tag.readBase128]
    split
    · exact ih _
    · exact okMono_pure _

theorem okMono_tag_decode (c : Ctx) : OkMono (Tag.decode c) := by
  apply okMono_bind (okMono_read_byte c)
  intro b
  dsimp only [Tag.decode]
  split
  · exact okMono_bind (okMono_readBase128 c _ _) fun _ => okMono_pure _
  · exact okMono_pure _

theorem okMono_indefinite_length_decode (c : Ctx) :
    OkMono (IndefiniteLength.decode c) := by
  apply okMono_bind (okMono_read_byte c)
  intro b
  dsimp only [IndefiniteLength.decode]
  split
  · exact okMono_pure _
  · split
    · exact okMono_pure _
    · split
      · exact okMono_bind (okMono_read_slice c _) fun _ => okMono_pure _
      · exact okMono_throwAt _

theorem okMono_header_decodeLength (c : Ctx) (tag : Tag) :
    OkMono (Header.decodeLength c tag) := by
  intro p a q h
  unfold Header.decodeLength at h
  split at h
  · rename_i l p' heq
    simp only [PResult.ok.injEq] at h
    obtain ⟨rfl, rfl⟩ := h
    exact okMono_indefinite_length_decode c p l p' heq
  · split at h <;> simp at h

theorem okMono_header_decode (c : Ctx) : OkMono (Header.decode c) := by
  apply okMono_bind (okMono_tag_decode c)
  intro tag
  exact okMono_bind (okMono_header_decodeLength c tag) fun _ => okMono_pure _

theorem scanner_okMono (fuel : Nat) :
    (∀ c, OkMono (Reader.indefinite_value_length c fuel)) ∧
    (∀ c d, OkMono (Reader.indefinite_value_length_parse_to_end c fuel d)) ∧
    (∀ c d, OkMono (Reader.parse_to_end_loop c fuel d)) ∧
    (∀ c, OkMono (Reader.tlv_bytes c fuel)) := by
  induction fuel with
  | zero =>
    exact ⟨fun c => okMono_throw _, fun c d => okMono_throw _,
      fun c d => okMono_throw _, fun c => okMono_throw _⟩
  | succ f ih =>
    obtain ⟨ih1, ih2, ih3, ih4⟩ := ih
    refine ⟨fun c => ?_, fun c d => ?_, fun c d => ?_, fun c => ?_⟩
    · -- indefinite_value_length
      intro p a q h
      simp only [Reader.indefinite_value_length] at h
      rcases DecM.bind_ok_iff.mp h with ⟨start, r1, hg, h⟩
      simp only [DecM.getPos_apply, PResult.ok.injEq] at hg
      obtain ⟨rfl, rfl⟩ := hg
      rcases DecM.bind_ok_iff.mp h with ⟨u, r2, hp, h⟩
      have hm : p ≤ r2 := ih2 c 0 p u r2 hp
      rcases DecM.bind_ok_iff.mp h with ⟨p2, r3, hg2, h⟩
      simp only [DecM.getPos_apply, PResult.ok.injEq] at hg2
      obtain ⟨rfl, rfl⟩ := hg2
      rcases DecM.bind_ok_iff.mp h with ⟨v, r4, hrw, h⟩
      simp only [Reader.rewind] at hrw
      rw [if_pos (by omega)] at hrw
      simp only [PResult.ok.injEq] at hrw
      obtain ⟨-, rfl⟩ := hrw
      have := okMono_addLength (r2 - p) EOC_LENGTH _ _ _ h
      omega
    · -- indefinite_value_length_parse_to_end
      intro p a q h
      simp only [Reader.indefinite_value_length_parse_to_end] at h
      split at h
      · simp [DecM.throwAt] at h
      · exact ih3 c d p a q h
    · -- parse_to_end_loop
      simp only [Reader.parse_to_end_loop]
      apply okMono_bind (okMono_peek_header c)
      intro header
      split
      · apply okMono_bind (okMono_header_decode c)
        intro _
        apply okMono_bind (ih2 c (d + 1))
        intro _
        apply okMono_bind (okMono_read_eoc c)
        intro eoc
        split
        · apply okMono_bind (okMono_throwAt _)
          intro _
          apply okMono_bind (okMono_peek_eoc c)
          intro b
          apply okMono_bind (okMono_is_finished c)
          intro fin
          split
          · exact okMono_pure _
          · exact ih3 c d
        · apply okMono_bind (okMono_pure _)
          intro _
          apply okMono_bind (okMono_peek_eoc c)
          intro b
          apply okMono_bind (okMono_is_finished c)
          intro fin
          split
          · exact okMono_pure _
          · exact ih3 c d
      · apply okMono_bind (ih4 c)
        intro _
        apply okMono_bind (okMono_pure _)
        intro _
        apply okMono_bind (okMono_peek_eoc c)
        intro b
        apply okMono_bind (okMono_is_finished c)
        intro fin
        split
        · exact okMono_pure _
        · exact ih3 c d
    · -- tlv_bytes
      simp only [Reader.tlv_bytes]
      apply okMono_bind (okMono_peek_header c)
      intro header
      obtain ⟨htag, hlen⟩ := header
      cases hlen with
      | definite n =>
        apply okMono_bind (okMono_pure _)
        intro y
        exact okMono_bind (okMono_addLength _ _) fun _ => okMono_read_slice c _
      | indefinite =>
        apply okMono_bind (ih1 c)
        intro l
        apply okMono_bind (okMono_subLength _ _)
        intro y
        exact okMono_bind (okMono_addLength _ _) fun _ => okMono_read_slice c _

/-! ## The scanner's contract (claims C1, C2) -/

/-- Decomposition of a successful `indefinite_value_length` run: the scan
reached some end position `pEnd ≥ p`, the cursor was rewound to `p`, and the
result is `(pEnd - p) + EOC_LENGTH`. -/
theorem indefinite_value_length_ok_decomp (c : Ctx) (fuel p len p' : Nat)
    (h : Reader.indefinite_value_length c (fuel + 1) p = .ok len p') :
    ∃ pEnd,
      Reader.indefinite_value_length_parse_to_end c fuel 0 p = .ok () pEnd ∧
      p ≤ pEnd ∧ p' = p ∧ len = (pEnd - p) + EOC_LENGTH := by
  simp only [Reader.indefinite_value_length] at h
  rcases DecM.bind_ok_iff.mp h with ⟨start, r1, hg, h⟩
  simp only [DecM.getPos_apply, PResult.ok.injEq] at hg
  obtain ⟨rfl, rfl⟩ := hg
  rcases DecM.bind_ok_iff.mp h with ⟨u, pEnd, hp, h⟩
  cases u
  have hm : p ≤ pEnd := (scanner_okMono fuel).2.1 c 0 p () pEnd hp
  rcases DecM.bind_ok_iff.mp h with ⟨p2, r3, hg2, h⟩
  simp only [DecM.getPos_apply, PResult.ok.injEq] at hg2
  obtain ⟨rfl, rfl⟩ := hg2
  rcases DecM.bind_ok_iff.mp h with ⟨v, r4, hrw, h⟩
  simp only [Reader.rewind] at hrw
  rw [if_pos (by omega)] at hrw
  simp only [PResult.ok.injEq] at hrw
  obtain ⟨-, rfl⟩ := hrw
  unfold addLength at h
  split at h
  · simp only [DecM.pure_apply, PResult.ok.injEq] at h
    exact ⟨pEnd, hp, hm, by omega, by omega⟩
  · simp [DecM.throw] at h

/-- Claim C1: whenever `indefinite_value_length` succeeds (cursor at the
first value byte of a BER indefinite-length value, header already consumed),
it has scanned forward with `parse_to_end`, computed `L` as the current
position minus the remembered start position, rewound the cursor by `L` (so
the cursor is back at the start position when the call returns), and
returned `L + 2` (the two extra bytes accounting for the EOC marker). -/
theorem claim_C1_indefinite_value_length_contract (c : Ctx)
    (fuel p len p' : Nat)
    (h : Reader.indefinite_value_length c (fuel + 1) p = .ok len p') :
    ∃ pEnd,
      Reader.indefinite_value_length_parse_to_end c fuel 0 p = .ok () pEnd ∧
      p' = p ∧ len = (pEnd - p) + EOC_LENGTH := by
  obtain ⟨pEnd, h1, _, h3, h4⟩ :=
    indefinite_value_length_ok_decomp c fuel p len p' h
  exact ⟨pEnd, h1, h3, h4⟩

/-- Witness for C1: the BER value `02 01 42` followed by the EOC `00 00`
(a one-integer indefinite SEQUENCE body); the scanner returns 5 and restores
the cursor to 0. -/
theorem claim_C1_witness :
    ∃ pEnd,
      Reader.indefinite_value_length_parse_to_end
        ⟨[0x02, 0x01, 0x42, 0x00, 0x00], true⟩ 4 0 0 = .ok () pEnd ∧
      0 = 0 ∧ 5 = (pEnd - 0) + EOC_LENGTH :=
  claim_C1_indefinite_value_length_contract
    ⟨[0x02, 0x01, 0x42, 0x00, 0x00], true⟩ 4 0 5 0 (by decide)

/-- Claim C2 counterexample: on the indefinite value body
`02 01 42 00 00` (cursor at the first value byte 0), the terminating EOC
occupies positions 3–4, so the byte immediately after it is position 5 and
the distance from the first value byte to it is 5.  The claim says the
reported length is that distance *minus two*, i.e. 3; the scanner reports
5 (the distance itself). -/
theorem claim_C2_counterexample :
    Reader.indefinite_value_length ⟨[0x02, 0x01, 0x42, 0x00, 0x00], true⟩ 5 0 =
      .ok 5 0 ∧ (5 : Nat) ≠ 5 - 2 :=
  ⟨by decide, by decide⟩

/-- Claim C2 as amended: for a well-formed BER indefinite-length value (the
scan stops at a terminating EOC marker), the length reported by
`indefinite_value_length` equals the distance from the first value byte to
the byte immediately after the terminating EOC (with no further subtraction:
the report includes the two EOC bytes), and the cursor is restored exactly
to its position before the call. -/
theorem claim_C2_amended_scanner_length (c : Ctx)
    (fuel p len p' pEnd : Nat)
    (hscan : Reader.indefinite_value_length c (fuel + 1) p = .ok len p')
    (hstop :
      Reader.indefinite_value_length_parse_to_end c fuel 0 p = .ok () pEnd)
    (heoc : (c.data.drop pEnd).take 2 = [0, 0]) :
    len = (pEnd + EOC_LENGTH) - p ∧ p' = p := by
  obtain ⟨pEnd', h1, h2, h3, h4⟩ :=
    indefinite_value_length_ok_decomp c fuel p len p' hscan
  rw [h1] at hstop
  have : pEnd' = pEnd := by
    simpa using congrArg PResult.pos hstop
  subst this
  refine ⟨?_, h3⟩
  simp only [EOC_LENGTH] at h4 ⊢
  omega

/-- Witness for the amended C2: the body `31 00` (empty SET) with EOC at
positions 2–3; the scan stops at 2, the scanner reports 4 = (2 + 2) − 0 and
restores the cursor to 0. -/
theorem claim_C2_amended_witness :
    (4 : Nat) = (2 + EOC_LENGTH) - 0 ∧ (0 : Nat) = 0 :=
  claim_C2_amended_scanner_length ⟨[0x31, 0x00, 0x00, 0x00], true⟩ 4 0 4 0 2
    (by decide) (by decide) (by decide)

/-! ## Symbolic stepping lemmas

Behavior of the primitive reader operations on a state whose remaining bytes
(`c.data.drop p`) are known; used to run the scanner over schematic
inputs. -/

theorem DecM.bind_eq_of_ok {x : DecM α} {p r : Nat} {a : α}
    (h : x p = .ok a r) (f : α → DecM β) : (x >>= f) p = f a r := by
  simp only [DecM.bind_apply, h]

theorem DecM.bind_eq_of_err {x : DecM α} {p r : Nat} {e : Error}
    (h : x p = .err e r) (f : α → DecM β) : (x >>= f) p = .err e r := by
  simp only [DecM.bind_apply, h]

theorem length_sub_of_drop {c : Ctx} {p : Nat} {bs : List Nat}
    (h : c.data.drop p = bs) : c.data.length - p = bs.length := by
  rw [← List.length_drop, h]

theorem read_slice_at {c : Ctx} {p : Nat} {bs rest : List Nat}
    (h : c.data.drop p = bs ++ rest) (hbs : 1 ≤ bs.length) :
    Reader.read_slice c bs.length p = .ok bs (p + bs.length) := by
  have hlen : c.data.length - p = bs.length + rest.length := by
    have := length_sub_of_drop h
    simpa using this
  have hle : p + bs.length ≤ c.data.length := by omega
  unfold Reader.read_slice
  rw [if_pos hle, h, List.take_left]

theorem read_byte_at {c : Ctx} {p b : Nat} {rest : List Nat}
    (h : c.data.drop p = b :: rest) :
    Reader.read_byte c p = .ok b (p + 1) := by
  have hs : Reader.read_slice c 1 p = .ok [b] (p + 1) := by
    have := @read_slice_at c p [b] rest (by simpa using h) (by simp)
    simpa using this
  unfold Reader.read_byte
  rw [DecM.bind_eq_of_ok hs]
  rfl

theorem peek_byte_at {c : Ctx} {p b : Nat} {rest : List Nat}
    (h : c.data.drop p = b :: rest) :
    Reader.peek_byte c p = .ok (some b) p := by
  have : c.data[p]? = some b := by
    have h0 : (c.data.drop p)[0]? = some b := by rw [h]; simp
    rwa [List.getElem?_drop, Nat.add_zero] at h0
  unfold Reader.peek_byte
  rw [this]

theorem drop_add_two {c : Ctx} {p b0 b1 : Nat} {rest : List Nat}
    (h : c.data.drop p = b0 :: b1 :: rest) :
    c.data.drop (p + 2) = rest := by
  have : c.data.drop (p + 2) = (c.data.drop p).drop 2 := by
    rw [List.drop_drop]
  rw [this, h]
  rfl

theorem drop_add_one {c : Ctx} {p b0 : Nat} {rest : List Nat}
    (h : c.data.drop p = b0 :: rest) :
    c.data.drop (p + 1) = rest := by
  have : c.data.drop (p + 1) = (c.data.drop p).drop 1 := by
    rw [List.drop_drop]
  rw [this, h]
  rfl

/-- Decoding a single-byte tag. -/
theorem tag_decode_single {c : Ctx} {p b0 : Nat} {rest : List Nat}
    (h : c.data.drop p = b0 :: rest) (hb0 : b0 % 32 ≠ 31) :
    Tag.decode c p =
      .ok ⟨b0 / 64, decide (b0 / 32 % 2 = 1), b0 % 32⟩ (p + 1) := by
  unfold Tag.decode
  rw [DecM.bind_eq_of_ok (read_byte_at h)]
  simp only [if_neg hb0, DecM.pure_apply]

/-- Decoding a short-form definite length byte. -/
theorem indefinite_length_decode_short {c : Ctx} {p b1 : Nat}
    {rest : List Nat} (h : c.data.drop p = b1 :: rest) (hb1 : b1 ≤ 0x7F) :
    IndefiniteLength.decode c p = .ok (.definite b1) (p + 1) := by
  unfold IndefiniteLength.decode
  rw [DecM.bind_eq_of_ok (read_byte_at h)]
  simp only [if_pos hb1, DecM.pure_apply]

/-- Decoding the indefinite sentinel byte `0x80`. -/
theorem indefinite_length_decode_indef {c : Ctx} {p : Nat}
    {rest : List Nat} (h : c.data.drop p = 0x80 :: rest) :
    IndefiniteLength.decode c p = .ok .indefinite (p + 1) := by
  unfold IndefiniteLength.decode
  rw [DecM.bind_eq_of_ok (read_byte_at h)]
  norm_num

/-- `decodeLength` passes a successful length decode through. -/
theorem header_decodeLength_of_ok {c : Ctx} {tag : Tag} {p q : Nat}
    {l : IndefiniteLength} (h : IndefiniteLength.decode c p = .ok l q) :
    Header.decodeLength c tag p = .ok l q := by
  unfold Header.decodeLength
  rw [h]

/-- Decoding a two-byte header with a single-byte tag and a short definite
length. -/
theorem header_decode_short {c : Ctx} {p b0 b1 : Nat} {rest : List Nat}
    (h : c.data.drop p = b0 :: b1 :: rest) (hb0 : b0 % 32 ≠ 31)
    (hb1 : b1 ≤ 0x7F) :
    Header.decode c p =
      .ok ⟨⟨b0 / 64, decide (b0 / 32 % 2 = 1), b0 % 32⟩, .definite b1⟩
        (p + 2) := by
  unfold Header.decode
  rw [DecM.bind_eq_of_ok (tag_decode_single h hb0)]
  rw [DecM.bind_eq_of_ok (header_decodeLength_of_ok
    (indefinite_length_decode_short (drop_add_one h) hb1))]
  rfl

/-- Decoding a two-byte header with a single-byte tag and the indefinite
length sentinel `0x80`. -/
theorem header_decode_indefinite {c : Ctx} {p b0 : Nat} {rest : List Nat}
    (h : c.data.drop p = b0 :: 0x80 :: rest) (hb0 : b0 % 32 ≠ 31) :
    Header.decode c p =
      .ok ⟨⟨b0 / 64, decide (b0 / 32 % 2 = 1), b0 % 32⟩, .indefinite⟩
        (p + 2) := by
  unfold Header.decode
  rw [DecM.bind_eq_of_ok (tag_decode_single h hb0)]
  rw [DecM.bind_eq_of_ok (header_decodeLength_of_ok
    (indefinite_length_decode_indef (drop_add_one h)))]
  rfl

theorem peek_header_of_decode {c : Ctx} {p q : Nat} {hd : Header}
    (h : Header.decode c p = .ok hd q) :
    Reader.peek_header c p = .ok hd p := by
  unfold Reader.peek_header
  rw [h]

theorem peek_eoc_true_at {c : Ctx} {p : Nat} {rest : List Nat}
    (h : c.data.drop p = 0 :: 0 :: rest) :
    Reader.peek_eoc c p = .ok true p := by
  unfold Reader.peek_eoc
  rw [h]
  rfl

theorem peek_eoc_false_at {c : Ctx} {p b : Nat} {rest : List Nat}
    (h : c.data.drop p = b :: rest) (hb : b ≠ 0) :
    Reader.peek_eoc c p = .ok false p := by
  unfold Reader.peek_eoc
  rw [h]
  cases rest with
  | nil => simp [List.take, hb]
  | cons x xs => simp [List.take, hb]

theorem read_eoc_true_at {c : Ctx} {p : Nat} {rest : List Nat}
    (h : c.data.drop p = 0 :: 0 :: rest) :
    Reader.read_eoc c p = .ok true (p + 2) := by
  have hpk : Reader.peek_byte c p = .ok (some 0) p := peek_byte_at h
  have hs : Reader.read_slice c 2 p = .ok [0, 0] (p + 2) := by
    have := @read_slice_at c p [0, 0] rest (by simpa using h) (by simp)
    simpa using this
  unfold Reader.read_eoc
  rw [DecM.bind_eq_of_ok hpk]
  rw [if_pos rfl]
  rw [DecM.bind_eq_of_ok hs]
  norm_num

/-! ## Nested indefinite values and the recursion limit (claim C4) -/

/-- A nest of BER indefinite-length SEQUENCEs: `nestContent d` is an
indefinite SEQUENCE TLV whose indefinite-length values are nested `d + 1`
deep; the innermost body is an empty definite SET `31 00`. -/
def nestContent : Nat → List Nat
  | 0 => [0x31, 0x00]
  | d + 1 => [0x30, 0x80] ++ nestContent d ++ [0x00, 0x00]

theorem nestContent_length (d : Nat) : (nestContent d).length = 4 * d + 2 := by
  induction d with
  | zero => rfl
  | succ d ih =>
    simp only [nestContent, List.length_append, List.length_cons,
      List.length_nil, ih]
    omega

theorem drop_add {c : Ctx} {p n : Nat} {bs rest : List Nat}
    (h : c.data.drop p = bs ++ rest) (hn : bs.length = n) :
    c.data.drop (p + n) = rest := by
  subst hn
  have h2 : List.drop bs.length (List.drop p c.data) =
      List.drop (p + bs.length) c.data := List.drop_drop bs.length p c.data
  rw [← h2, h, List.drop_left]

/-- Skipping a complete definite TLV with a single-byte tag and a short
length. -/
theorem tlv_bytes_short_at {c : Ctx} {p b0 b1 fuel : Nat}
    {v rest : List Nat} (h : c.data.drop p = b0 :: b1 :: (v ++ rest))
    (hb0 : b0 % 32 ≠ 31) (hb1 : b1 ≤ 0x7F) (hv : v.length = b1) :
    Reader.tlv_bytes c (fuel + 1) p = .ok (b0 :: b1 :: v) (p + (2 + b1)) := by
  have hdr : Header.decode c p =
      .ok ⟨⟨b0 / 64, decide (b0 / 32 % 2 = 1), b0 % 32⟩, .definite b1⟩
        (p + 2) :=
    header_decode_short h hb0 hb1
  have henc :
      Header.encodedLen
        ⟨⟨b0 / 64, decide (b0 / 32 % 2 = 1), b0 % 32⟩, .definite b1⟩ = 2 := by
    have hle : b0 % 32 ≤ 30 := by omega
    simp [Header.encodedLen, Tag.encodedLen, IndefiniteLength.encodedLen,
      lengthEncodedLen, hle, hb1]
  have hslice : Reader.read_slice c (2 + b1) p =
      .ok (b0 :: b1 :: v) (p + (2 + b1)) := by
    have hshape : c.data.drop p = (b0 :: b1 :: v) ++ rest := by
      simpa using h
    have hl : (b0 :: b1 :: v).length = 2 + b1 := by
      simp [hv]; omega
    have := read_slice_at hshape (by simp)
    rwa [hl] at this
  simp only [Reader.tlv_bytes]
  rw [DecM.bind_eq_of_ok (peek_header_of_decode hdr)]
  dsimp only
  rw [henc]
  rw [DecM.bind_eq_of_ok (DecM.pure_apply b1 p)]
  rw [DecM.bind_eq_of_ok (show addLength 2 b1 p = .ok (2 + b1) p by
    unfold addLength
    rw [if_pos (by unfold maxLength; omega)]
    rfl)]
  exact hslice

/-- Success of the scanner body on a nest: entered at depth `k` on the
content of a depth-`d + 1` nest followed by an EOC, `parse_to_end` consumes
exactly the content whenever all recursion depths `k + i` stay within the
limit. -/
theorem parse_nest_ok (d : Nat) :
    ∀ (k : Nat) (c : Ctx) (p : Nat) (tail : List Nat),
      c.data.drop p = nestContent d ++ [0x00, 0x00] ++ tail →
      k + d ≤ INDEFINITE_LENGTH_PARSER_RECURSION_MAX →
      Reader.indefinite_value_length_parse_to_end c (2 * d + 2 + 1) k p =
        .ok () (p + (nestContent d).length) := by
  induction d with
  | zero =>
    intro k c p tail h hk
    have h' : c.data.drop p = 0x31 :: 0x00 :: ([] ++ (0x00 :: 0x00 :: tail)) := by
      simpa [nestContent] using h
    have htlv : Reader.tlv_bytes c (0 + 1) p = .ok [0x31, 0x00] (p + (2 + 0)) :=
      tlv_bytes_short_at h' (by decide) (by decide) (by decide)
    have heoc : c.data.drop (p + 2) = 0x00 :: 0x00 :: tail := by
      have := @drop_add c p ([0x31, 0x00].length) [0x31, 0x00]
        (0x00 :: 0x00 :: tail) (by simpa [nestContent] using h) rfl
      simpa using this
    show Reader.indefinite_value_length_parse_to_end c (2 + 1) k p =
      .ok () (p + 2)
    simp only [Reader.indefinite_value_length_parse_to_end]
    rw [if_neg (by omega : ¬ k > INDEFINITE_LENGTH_PARSER_RECURSION_MAX)]
    show Reader.parse_to_end_loop c (1 + 1) k p = .ok () (p + 2)
    simp only [Reader.parse_to_end_loop]
    rw [DecM.bind_eq_of_ok (peek_header_of_decode
      (header_decode_short h' (by decide) (by decide)))]
    rw [if_neg (by simp [IndefiniteLength.isIndefinite])]
    rw [DecM.bind_eq_of_ok (show Reader.tlv_bytes c 1 p =
      .ok [0x31, 0x00] (p + 2) from htlv)]
    rw [DecM.bind_eq_of_ok (DecM.pure_apply () (p + 2))]
    rw [DecM.bind_eq_of_ok (peek_eoc_true_at heoc)]
    simp [Reader.is_finished]
  | succ d ih =>
    intro k c p tail h hk
    have h' : c.data.drop p =
        0x30 :: 0x80 :: (nestContent d ++ [0x00, 0x00] ++ (0x00 :: 0x00 :: tail)) := by
      simpa [nestContent] using h
    have hdrop2 : c.data.drop (p + 2) =
        nestContent d ++ [0x00, 0x00] ++ (0x00 :: 0x00 :: tail) :=
      drop_add_two h'
    have hInner := ih (k + 1) c (p + 2) (0x00 :: 0x00 :: tail) hdrop2
      (by omega)
    have hAfter : c.data.drop ((p + 2) + (nestContent d).length) =
        0x00 :: 0x00 :: (0x00 :: 0x00 :: tail) := by
      have := @drop_add c (p + 2) ((nestContent d).length) (nestContent d)
        ([0x00, 0x00] ++ (0x00 :: 0x00 :: tail))
        (by simpa [List.append_assoc] using hdrop2) rfl
      simpa using this
    have hEoc : Reader.read_eoc c ((p + 2) + (nestContent d).length) =
        .ok true (((p + 2) + (nestContent d).length) + 2) :=
      read_eoc_true_at hAfter
    have hPeek :
        Reader.peek_eoc c (((p + 2) + (nestContent d).length) + 2) =
          .ok true (((p + 2) + (nestContent d).length) + 2) :=
      peek_eoc_true_at (drop_add_two hAfter)
    have hlen : p + (nestContent (d + 1)).length =
        (((p + 2) + (nestContent d).length) + 2) := by
      simp only [nestContent, List.length_append, List.length_cons,
        List.length_nil]
      omega
    rw [hlen]
    rw [Reader.indefinite_value_length_parse_to_end.eq_2]
    rw [if_neg (by omega : ¬ k > INDEFINITE_LENGTH_PARSER_RECURSION_MAX)]
    rw [show 2 * (d + 1) + 2 = (2 * (d + 1) + 1) + 1 from rfl]
    rw [Reader.parse_to_end_loop.eq_2]
    rw [DecM.bind_eq_of_ok (peek_header_of_decode
      (header_decode_indefinite h' (by decide)))]
    rw [if_pos (show (Header.mk ⟨48 / 64, decide (48 / 32 % 2 = 1), 48 % 32⟩
      IndefiniteLength.indefinite).length.isIndefinite = true from rfl)]
    rw [DecM.bind_eq_of_ok (header_decode_indefinite h' (by decide))]
    rw [show (2 * (d + 1) + 1 : Nat) = 2 * d + 2 + 1 by ring]
    rw [DecM.bind_eq_of_ok hInner]
    rw [DecM.bind_eq_of_ok hEoc]
    rw [if_neg (by simp)]
    rw [DecM.bind_eq_of_ok (DecM.pure_apply () _)]
    dsimp only
    rw [DecM.bind_eq_of_ok hPeek]
    simp [Reader.is_finished]

/-- Failure of the scanner body on a nest: when the innermost level would
need recursion depth `k + d = 1025`, the scan descends `d` headers (2 bytes
each) and then fails with `RecursionLimitExceeded` at that position. -/
theorem parse_nest_recursion_err (d : Nat) :
    ∀ (k : Nat) (c : Ctx) (p : Nat) (tail : List Nat),
      c.data.drop p = nestContent d ++ [0x00, 0x00] ++ tail →
      k + d = INDEFINITE_LENGTH_PARSER_RECURSION_MAX + 1 →
      Reader.indefinite_value_length_parse_to_end c (2 * d + 2 + 1) k p =
        .err ⟨.recursionLimitExceeded, some (p + 2 * d)⟩ (p + 2 * d) := by
  induction d with
  | zero =>
    intro k c p tail h hk
    rw [Reader.indefinite_value_length_parse_to_end.eq_2]
    rw [if_pos (by omega)]
    rfl
  | succ d ih =>
    intro k c p tail h hk
    have h' : c.data.drop p =
        0x30 :: 0x80 ::
          (nestContent d ++ [0x00, 0x00] ++ (0x00 :: 0x00 :: tail)) := by
      simpa [nestContent] using h
    have hdrop2 : c.data.drop (p + 2) =
        nestContent d ++ [0x00, 0x00] ++ (0x00 :: 0x00 :: tail) :=
      drop_add_two h'
    have hInner := ih (k + 1) c (p + 2) (0x00 :: 0x00 :: tail) hdrop2
      (by omega)
    rw [Reader.indefinite_value_length_parse_to_end.eq_2]
    rw [if_neg (by omega : ¬ k > INDEFINITE_LENGTH_PARSER_RECURSION_MAX)]
    rw [show 2 * (d + 1) + 2 = (2 * (d + 1) + 1) + 1 from rfl]
    rw [Reader.parse_to_end_loop.eq_2]
    rw [DecM.bind_eq_of_ok (peek_header_of_decode
      (header_decode_indefinite h' (by decide)))]
    rw [if_pos (show (Header.mk ⟨48 / 64, decide (48 / 32 % 2 = 1), 48 % 32⟩
      IndefiniteLength.indefinite).length.isIndefinite = true from rfl)]
    rw [DecM.bind_eq_of_ok (header_decode_indefinite h' (by decide))]
    rw [show (2 * (d + 1) + 1 : Nat) = 2 * d + 2 + 1 by ring]
    rw [DecM.bind_eq_of_err hInner]
    have heq : (p + 2) + 2 * d = p + 2 * (d + 1) := by ring
    rw [heq]

/-- Claim C4 counterexample: the claim says a BER input whose
indefinite-length values are nested to depth 1025 fails with
`RecursionLimitExceeded`.  `nestContent 1024` is exactly such an input
(1025 nested indefinite headers); running the scanner on it — cursor at the
first value byte, position 2, as the `sequence`/`decode_value` callers do —
*succeeds*, returning the value length 4100 and restoring the cursor: the
recursion check `depth > 1024` is reached with depth argument at most 1024.
(Depth 1026 is the first failing depth; see the amended theorem.) -/
theorem claim_C4_counterexample :
    Reader.indefinite_value_length ⟨nestContent 1025, true⟩
      (2 * 1024 + 2 + 1 + 1) 2 = .ok 4100 2 := by
  have hdrop : (Ctx.mk (nestContent 1025) true).data.drop 2 =
      nestContent 1024 ++ [0x00, 0x00] ++ [] := by
    rw [show nestContent 1025 =
      [0x30, 0x80] ++ nestContent 1024 ++ [0x00, 0x00] from rfl]
    simp
  have hscan := parse_nest_ok 1024 0 ⟨nestContent 1025, true⟩ 2 [] hdrop
    (by norm_num [INDEFINITE_LENGTH_PARSER_RECURSION_MAX])
  rw [nestContent_length] at hscan
  norm_num at hscan
  rw [Reader.indefinite_value_length.eq_2]
  rw [DecM.bind_eq_of_ok (show DecM.getPos 2 = .ok 2 2 from rfl)]
  rw [DecM.bind_eq_of_ok hscan]
  decide

/-- Claim C4 as amended: `indefinite_value_length_parse_to_end` fails with
`RecursionLimitExceeded` (at the current position) exactly when its depth
argument exceeds 1024; consequently the first nesting depth of
indefinite-length values to fail is 1026 (`nestContent 1025`, 1026 nested
indefinite headers, the scanner being entered at depth argument 0 for the
level below the outermost header), not 1025. -/
theorem claim_C4_amended_recursion_limit :
    (∀ (c : Ctx) (fuel depth p : Nat),
        depth > INDEFINITE_LENGTH_PARSER_RECURSION_MAX →
        Reader.indefinite_value_length_parse_to_end c (fuel + 1) depth p =
          .err ⟨.recursionLimitExceeded, some p⟩ p) ∧
    Reader.indefinite_value_length ⟨nestContent 1026, true⟩
      (2 * 1025 + 2 + 1 + 1) 2 =
      .err ⟨.recursionLimitExceeded, some 2052⟩ 2052 := by
  constructor
  · intro c fuel depth p hd
    rw [Reader.indefinite_value_length_parse_to_end.eq_2]
    rw [if_pos hd]
    rfl
  · have hdrop : (Ctx.mk (nestContent 1026) true).data.drop 2 =
        nestContent 1025 ++ [0x00, 0x00] ++ [] := by
      rw [show nestContent 1026 =
        [0x30, 0x80] ++ nestContent 1025 ++ [0x00, 0x00] from rfl]
      simp
    have hfail := parse_nest_recursion_err 1025 0 ⟨nestContent 1026, true⟩ 2
      [] hdrop (by norm_num [INDEFINITE_LENGTH_PARSER_RECURSION_MAX])
    norm_num at hfail
    rw [Reader.indefinite_value_length.eq_2]
    rw [DecM.bind_eq_of_ok (show DecM.getPos 2 = .ok 2 2 from rfl)]
    rw [DecM.bind_eq_of_err hfail]

/-- Witness for the amended C4: at depth argument 1025 the check fires
immediately. -/
theorem claim_C4_amended_witness :
    Reader.indefinite_value_length_parse_to_end ⟨[], true⟩ 1 1025 0 =
      .err ⟨.recursionLimitExceeded, some 0⟩ 0 :=
  claim_C4_amended_recursion_limit.1 ⟨[], true⟩ 0 1025 0 (by decide)

/-! ## The sequence reader and the nested window (claim C3) -/

/-- Claim C3 counterexample: on the BER input `30 80 02 01 42 00 00`,
`sequence` computes the scanner length 5 (value plus EOC) and hands
`read_nested` that full length: a field decoder that reads 5 bytes from the
nested reader succeeds and observes the two EOC bytes `00 00` inside its
window, ending with the outer cursor at 7.  Under the claim — nested reader
bounded to the computed length minus the two EOC bytes, EOC outside the
window — the same decoder would hit the 3-byte bound and fail `Incomplete`,
as the second conjunct shows for a window of 3. -/
theorem claim_C3_counterexample :
    Reader.sequence ⟨[0x30, 0x80, 0x02, 0x01, 0x42, 0x00, 0x00], true⟩ 10
        (fun sub => Reader.read_slice sub 5) 0 =
      .ok [0x02, 0x01, 0x42, 0x00, 0x00] 7 ∧
    Reader.read_nested ⟨[0x30, 0x80, 0x02, 0x01, 0x42, 0x00, 0x00], true⟩ 3
        (fun sub => Reader.read_slice sub 5) 2 =
      .err ⟨.incomplete, some 0⟩ 2 := by
  constructor
  · decide
  · decide

/-- Claim C3 as amended: when `sequence` meets a header carrying the
indefinite-length sentinel, it runs the indefinite scanner and bounds the
nested reader handed to the field-wise decoder to the *full* computed
length — the two EOC bytes are part of the nested reader's window — and the
EOC marker is consumed inside the nested reader (by the opportunistic EOC
read of `decode`/`finish`), the second conjunct showing `finish` consuming a
trailing EOC under BER. -/
theorem claim_C3_amended_sequence_window {α : Type} :
    (∀ (c : Ctx) (fuel p : Nat) (f : Ctx → DecM α) (hd : Header)
        (p₁ L p₂ : Nat),
        Header.decode c p = .ok hd p₁ →
        hd.tag = Tag.sequenceTag →
        hd.length = .indefinite →
        Reader.indefinite_value_length c fuel p₁ = .ok L p₂ →
        Reader.sequence c fuel f p = Reader.read_nested c L f p₂) ∧
    (∀ (sub : Ctx) (v : α) (p : Nat),
        sub.ber = true →
        sub.data.drop p = [0x00, 0x00] →
        Reader.finish sub v p = .ok v (p + 2)) := by
  constructor
  · intro c fuel p f hd p₁ L p₂ hdec htag hlen hivl
    obtain ⟨tagv, lenv⟩ := hd
    simp only at htag hlen
    subst htag
    subst hlen
    unfold Reader.sequence
    rw [DecM.bind_eq_of_ok hdec]
    rw [DecM.bind_eq_of_ok (show Tag.assertEq Tag.sequenceTag
      Tag.sequenceTag p₁ = .ok () p₁ by
        unfold Tag.assertEq
        rw [if_pos rfl]
        rfl)]
    dsimp only
    rw [DecM.bind_eq_of_ok hivl]
  · intro sub v p hber heoc
    have hlen2 := length_sub_of_drop heoc
    have hfin : Reader.is_finished sub (p + 2) = .ok true (p + 2) := by
      unfold Reader.is_finished
      rw [show sub.data.length - (p + 2) = 0 by
        simp only [List.length_cons, List.length_nil] at hlen2
        omega]
      rfl
    unfold Reader.finish
    rw [hber]
    rw [if_pos rfl]
    rw [DecM.bind_eq_of_ok (read_eoc_true_at heoc)]
    rw [DecM.bind_eq_of_ok (DecM.pure_apply () _)]
    dsimp only
    rw [DecM.bind_eq_of_ok hfin]
    rfl

/-- Witness for the amended C3: on `30 80 31 00 00 00`, the scanner reports
4 and `sequence` equals `read_nested` with the full bound 4 at position 2;
and `finish` over a window holding exactly an EOC consumes it. -/
theorem claim_C3_amended_witness :
    Reader.sequence ⟨[0x30, 0x80, 0x31, 0x00, 0x00, 0x00], true⟩ 6
        (fun sub => Reader.read_slice sub 4) 0 =
      Reader.read_nested ⟨[0x30, 0x80, 0x31, 0x00, 0x00, 0x00], true⟩ 4
        (fun sub => Reader.read_slice sub 4) 2 ∧
    Reader.finish ⟨[0x00, 0x00], true⟩ (7 : Nat) 0 = .ok 7 (0 + 2) :=
  ⟨claim_C3_amended_sequence_window.1
      ⟨[0x30, 0x80, 0x31, 0x00, 0x00, 0x00], true⟩ 6 0
      (fun sub => Reader.read_slice sub 4) ⟨Tag.sequenceTag, .indefinite⟩
      2 4 2 (by decide) rfl rfl (by decide),
    claim_C3_amended_sequence_window.2 ⟨[0x00, 0x00], true⟩ 7 0 rfl rfl⟩

/-! ## `read_eoc` behavior (claims C5, C9) -/

theorem peek_byte_eq (c : Ctx) (p : Nat) :
    Reader.peek_byte c p = .ok c.data[p]? p := rfl

theorem read_eoc_none {c : Ctx} {p : Nat} (h : c.data[p]? = none) :
    Reader.read_eoc c p = .ok false p := by
  unfold Reader.read_eoc
  rw [DecM.bind_eq_of_ok (peek_byte_eq c p)]
  rw [h]
  rw [if_neg (by simp)]
  rfl

theorem read_eoc_nonzero {c : Ctx} {p b : Nat} (h : c.data[p]? = some b)
    (hb : b ≠ 0) : Reader.read_eoc c p = .ok false p := by
  unfold Reader.read_eoc
  rw [DecM.bind_eq_of_ok (peek_byte_eq c p)]
  rw [h]
  rw [if_neg (by simp [hb])]
  rfl

theorem read_eoc_invalid {c : Ctx} {p : Nat} (h : c.data[p]? = some 0)
    (h2 : (c.data.drop p).take 2 ≠ [0, 0]) (hlen : p + 2 ≤ c.data.length) :
    Reader.read_eoc c p = .err ⟨.endOfContent, some (p + 2)⟩ (p + 2) := by
  unfold Reader.read_eoc
  rw [DecM.bind_eq_of_ok (peek_byte_eq c p)]
  rw [h]
  rw [if_pos rfl]
  rw [DecM.bind_eq_of_ok (show Reader.read_slice c 2 p =
    .ok ((c.data.drop p).take 2) (p + 2) by
      unfold Reader.read_slice
      rw [if_pos hlen])]
  rw [if_pos h2]
  rfl

theorem read_eoc_incomplete {c : Ctx} {p : Nat} (h : c.data[p]? = some 0)
    (hlen : c.data.length < p + 2) :
    Reader.read_eoc c p = .err ⟨.incomplete, some p⟩ p := by
  unfold Reader.read_eoc
  rw [DecM.bind_eq_of_ok (peek_byte_eq c p)]
  rw [h]
  rw [if_pos rfl]
  rw [DecM.bind_eq_of_err (show Reader.read_slice c 2 p =
    .err ⟨.incomplete, some p⟩ p by
      unfold Reader.read_slice
      rw [if_neg (by omega)])]

/-- Claim C9: the full contract of `read_eoc`.  The cursor is unchanged with
`Ok(false)` when the next byte is absent or non-zero; when the next byte is
`0x00` it reads exactly two bytes, returning `Ok(true)` on `00 00`, failing
`EndOfContent` (at the position after the two bytes) when the second byte is
non-zero, and failing `Incomplete` (without moving) when fewer than two
bytes remain in the window. -/
theorem claim_C9_read_eoc_contract (c : Ctx) (p : Nat) :
    (c.data[p]? = none → Reader.read_eoc c p = .ok false p) ∧
    (∀ b, c.data[p]? = some b → b ≠ 0 →
      Reader.read_eoc c p = .ok false p) ∧
    (∀ rest, c.data.drop p = 0 :: 0 :: rest →
      Reader.read_eoc c p = .ok true (p + 2)) ∧
    (c.data[p]? = some 0 → (c.data.drop p).take 2 ≠ [0, 0] →
      p + 2 ≤ c.data.length →
      Reader.read_eoc c p = .err ⟨.endOfContent, some (p + 2)⟩ (p + 2)) ∧
    (c.data[p]? = some 0 → c.data.length < p + 2 →
      Reader.read_eoc c p = .err ⟨.incomplete, some p⟩ p) :=
  ⟨fun h => read_eoc_none h,
   fun _ h hb => read_eoc_nonzero h hb,
   fun _ h => read_eoc_true_at h,
   fun h h2 hlen => read_eoc_invalid h h2 hlen,
   fun h hlen => read_eoc_incomplete h hlen⟩

/-- Witness for C9: each branch of the contract at a concrete input. -/
theorem claim_C9_witness :
    Reader.read_eoc ⟨[], true⟩ 0 = .ok false 0 ∧
    Reader.read_eoc ⟨[0x05], true⟩ 0 = .ok false 0 ∧
    Reader.read_eoc ⟨[0x00, 0x00], true⟩ 0 = .ok true (0 + 2) ∧
    Reader.read_eoc ⟨[0x00, 0x07], true⟩ 0 =
      .err ⟨.endOfContent, some (0 + 2)⟩ (0 + 2) ∧
    Reader.read_eoc ⟨[0x00], true⟩ 0 = .err ⟨.incomplete, some 0⟩ 0 :=
  ⟨(claim_C9_read_eoc_contract ⟨[], true⟩ 0).1 rfl,
   (claim_C9_read_eoc_contract ⟨[0x05], true⟩ 0).2.1 5 rfl (by decide),
   (claim_C9_read_eoc_contract ⟨[0x00, 0x00], true⟩ 0).2.2.1 [] rfl,
   (claim_C9_read_eoc_contract ⟨[0x00, 0x07], true⟩ 0).2.2.2.1 rfl
     (by decide) (by decide),
   (claim_C9_read_eoc_contract ⟨[0x00], true⟩ 0).2.2.2.2 rfl (by decide)⟩

/-! ## `Reader::decode` (claim C5) -/

/-- Claim C5 counterexample: a primitive decoder that succeeds (here the
trivial decoder returning 42 and consuming nothing), on a BER reader whose
next bytes are `00 05`: there is no EOC marker present, so under the claim
`decode` should return the decoded value; instead the opportunistic
`read_eoc` fails (`EndOfContent`) and `decode` returns that error. -/
theorem claim_C5_counterexample :
    (Pure.pure 42 : DecM Nat) 0 = .ok 42 0 ∧
    Reader.decode ⟨[0x00, 0x05], true⟩ (Pure.pure 42) 0 =
      .err ⟨.endOfContent, some 2⟩ 2 :=
  ⟨rfl, by decide⟩

/-- Claim C5 as amended: `decode` returns the primitive decoder's result
with any error annotated with the reader's current position; when parsing
BER and the primitive decode succeeded, it then runs `read_eoc`: an
immediately following EOC marker (if present) is consumed before the value
is returned, a next byte that is absent or non-zero leaves the cursor
alone, and a next byte `0x00` that does not start a valid EOC marker makes
`decode` return the `read_eoc` error (`EndOfContent`) instead of the
decoded value. -/
theorem claim_C5_amended_decode_contract {α : Type} (c : Ctx) (td : DecM α)
    (p : Nat) :
    (∀ e p', td p = .err e p' →
      Reader.decode c td p = .err (e.nestedAt p') p') ∧
    (∀ a p', td p = .ok a p' → c.ber = false →
      Reader.decode c td p = .ok a p') ∧
    (∀ a p', td p = .ok a p' → c.ber = true → c.data[p']? = none →
      Reader.decode c td p = .ok a p') ∧
    (∀ a p' b, td p = .ok a p' → c.ber = true → c.data[p']? = some b →
      b ≠ 0 → Reader.decode c td p = .ok a p') ∧
    (∀ a p' rest, td p = .ok a p' → c.ber = true →
      c.data.drop p' = 0 :: 0 :: rest →
      Reader.decode c td p = .ok a (p' + 2)) ∧
    (∀ a p', td p = .ok a p' → c.ber = true → c.data[p']? = some 0 →
      (c.data.drop p').take 2 ≠ [0, 0] → p' + 2 ≤ c.data.length →
      Reader.decode c td p =
        .err ⟨.endOfContent, some (p' + 2)⟩ (p' + 2)) := by
  refine ⟨?_, ?_, ?_, ?_, ?_, ?_⟩
  · intro e p' h
    simp only [Reader.decode, h]
  · intro a p' h hber
    simp only [Reader.decode, h, hber]
    rfl
  · intro a p' h hber hn
    simp only [Reader.decode, h, hber, read_eoc_none hn]
    simp
  · intro a p' b h hber hn hb
    simp only [Reader.decode, h, hber, read_eoc_nonzero hn hb]
    simp
  · intro a p' rest h hber hr
    simp only [Reader.decode, h, hber, read_eoc_true_at hr]
    simp
  · intro a p' h hber hn h2 hlen
    simp only [Reader.decode, h, hber, read_eoc_invalid hn h2 hlen]
    simp

/-- Witness for the amended C5: under BER an EOC after the decoded value is
consumed; without BER the cursor is untouched. -/
theorem claim_C5_amended_witness :
    Reader.decode ⟨[0x00, 0x00], true⟩ (Pure.pure 42) 0 = .ok 42 (0 + 2) ∧
    Reader.decode ⟨[0x05], false⟩ (Pure.pure 7) 0 = .ok 7 0 :=
  ⟨(claim_C5_amended_decode_contract ⟨[0x00, 0x00], true⟩
      (Pure.pure (42 : Nat)) 0).2.2.2.2.1 42 0 [] rfl rfl rfl,
   (claim_C5_amended_decode_contract ⟨[0x05], false⟩
      (Pure.pure (7 : Nat)) 0).2.1 7 0 rfl rfl⟩

/-! ## Header decoding errors and ordering (claims C6, C10) -/

/-- Claim C6: when decoding a `Header`, a length-decode failure whose kind is
`Overlength` is returned to the caller as a `Length` error tagged with the
tag that was just decoded (and without position, as built by `.into()`);
a length-decode failure of any other kind is propagated unchanged. -/
theorem claim_C6_header_length_error (c : Ctx) (p : Nat) (tag : Tag)
    (p₁ : Nat) (e : Error) (p₂ : Nat)
    (htag : Tag.decode c p = .ok tag p₁)
    (hlen : IndefiniteLength.decode c p₁ = .err e p₂) :
    Header.decode c p =
      .err (if e.kind = .overlength then ⟨.length tag, none⟩ else e) p₂ := by
  have hdl : Header.decodeLength c tag p₁ =
      .err (if e.kind = .overlength then ⟨.length tag, none⟩ else e) p₂ := by
    unfold Header.decodeLength
    rw [hlen]
    split
    · rename_i l p' hc
      cases hc
    · rename_i e' p' hc
      injection hc with hc1 hc2
      subst hc1
      subst hc2
      split <;> rename_i hcond <;> simp [hcond]
  unfold Header.decode
  rw [DecM.bind_eq_of_ok htag]
  rw [DecM.bind_eq_of_err hdl]

/-- Witness for C6: on `30 85` the forbidden length byte `0x85` is an
`Overlength` failure, surfaced as `Length{tag = SEQUENCE}`; on a lone `30`
the length decode fails `Incomplete` and is propagated unchanged. -/
theorem claim_C6_witness :
    Header.decode ⟨[0x30, 0x85], true⟩ 0 =
      .err ⟨.length ⟨0, true, 16⟩, none⟩ 2 ∧
    Header.decode ⟨[0x30], true⟩ 0 = .err ⟨.incomplete, some 1⟩ 1 :=
  ⟨claim_C6_header_length_error ⟨[0x30, 0x85], true⟩ 0 ⟨0, true, 16⟩ 1
      ⟨.overlength, some 2⟩ 2 (by decide) (by decide),
   claim_C6_header_length_error ⟨[0x30], true⟩ 0 ⟨0, true, 16⟩ 1
      ⟨.incomplete, some 1⟩ 1 (by decide) (by decide)⟩

/-- Claim C10: `Header::der_cmp` — when the tags compare equal, an error is
returned whenever either header's length is the indefinite sentinel; when
both lengths are definite they are ordered numerically; when the tags'
comparison is not `Equal`, that ordering is returned without inspecting the
lengths. -/
theorem claim_C10_header_der_cmp (h1 h2 : Header) :
    (Tag.derCmp h1.tag h2.tag = .ok .eq → h1.length = .indefinite →
      Header.derCmp h1 h2 = .error ⟨.indefiniteLength, none⟩) ∧
    (∀ n, Tag.derCmp h1.tag h2.tag = .ok .eq → h1.length = .definite n →
      h2.length = .indefinite →
      Header.derCmp h1 h2 = .error ⟨.indefiniteLength, none⟩) ∧
    (∀ n1 n2, Tag.derCmp h1.tag h2.tag = .ok .eq →
      h1.length = .definite n1 → h2.length = .definite n2 →
      Header.derCmp h1 h2 = .ok (compare n1 n2)) ∧
    (∀ o, Tag.derCmp h1.tag h2.tag = .ok o → o ≠ .eq →
      Header.derCmp h1 h2 = .ok o) := by
  refine ⟨?_, ?_, ?_, ?_⟩
  · intro hT hl1
    unfold Header.derCmp
    rw [hT, hl1]
    rfl
  · intro n hT hl1 hl2
    unfold Header.derCmp
    rw [hT, hl1, hl2]
    rfl
  · intro n1 n2 hT hl1 hl2
    unfold Header.derCmp
    rw [hT, hl1, hl2]
    rfl
  · intro o hT ho
    cases o with
    | lt => unfold Header.derCmp; rw [hT]
    | eq => exact absurd rfl ho
    | gt => unfold Header.derCmp; rw [hT]

/-- Witness for C10: equal tags with an indefinite length on either side
error; equal tags with definite lengths order numerically; different tags
order by the tag comparison. -/
theorem claim_C10_witness :
    Header.derCmp ⟨Tag.sequenceTag, .indefinite⟩
      ⟨Tag.sequenceTag, .definite 3⟩ = .error ⟨.indefiniteLength, none⟩ ∧
    Header.derCmp ⟨Tag.sequenceTag, .definite 3⟩
      ⟨Tag.sequenceTag, .indefinite⟩ = .error ⟨.indefiniteLength, none⟩ ∧
    Header.derCmp ⟨Tag.sequenceTag, .definite 2⟩
      ⟨Tag.sequenceTag, .definite 5⟩ = .ok (compare 2 5) ∧
    Header.derCmp ⟨⟨0, false, 2⟩, .definite 9⟩
      ⟨Tag.sequenceTag, .definite 1⟩ = .ok .lt :=
  ⟨(claim_C10_header_der_cmp ⟨Tag.sequenceTag, .indefinite⟩
      ⟨Tag.sequenceTag, .definite 3⟩).1 rfl rfl,
   (claim_C10_header_der_cmp ⟨Tag.sequenceTag, .definite 3⟩
      ⟨Tag.sequenceTag, .indefinite⟩).2.1 3 rfl rfl rfl,
   (claim_C10_header_der_cmp ⟨Tag.sequenceTag, .definite 2⟩
      ⟨Tag.sequenceTag, .definite 5⟩).2.2.1 2 5 rfl rfl rfl,
   (claim_C10_header_der_cmp ⟨⟨0, false, 2⟩, .definite 9⟩
      ⟨Tag.sequenceTag, .definite 1⟩).2.2.2 .lt rfl (by decide)⟩

/-! ## `Any`, context-specific wrappers and `ContentInfo` decoding
(claim C7) -/

/-- `der::Any`: an untyped TLV — the tag together with the value bytes
(spec §3). -/
structure Any where
  tag : Tag
  value : List Nat
deriving DecidableEq, Repr

/-- Modelled from the spec: `Any` decoding (§4.4) — read a header, then
`value_len` bytes (for an indefinite length, the scanner's result minus the
two EOC bytes, retaining the raw source bytes per the §4.3 resolution
rule). -/
def Any.decode (c : Ctx) (fuel : Nat) : DecM Any := do
  let header ← Header.decode c
  let len ←
    match header.length with
    | .definite n => Pure.pure n
    | .indefinite => do
      let l ← Reader.indefinite_value_length c fuel
      subLength l EOC_LENGTH
  let v ← Reader.read_slice c len
  Pure.pure ⟨header.tag, v⟩

/-- A decoded context-specific field: the wrapper's tag number and the inner
value. -/
structure ContextSpecificAny where
  tag_number : Nat
  value : Any
deriving DecidableEq, Repr

/-- Modelled from the spec: `ContextSpecific::<Any>::decode` (§4.4
EXPLICIT) — consume an outer context-specific header (any other class is an
`UnexpectedTag` error) whose value is the inner TLV, decoded as `Any` inside
a bounded nested reader. -/
def ContextSpecificAny.decode (c : Ctx) (fuel : Nat) :
    DecM ContextSpecificAny := do
  let header ← Header.decode c
  if header.tag.tagClass = 2 then do
    let len ←
      match header.length with
      | .definite n => Pure.pure n
      | .indefinite => Reader.indefinite_value_length c fuel
    let v ← Reader.read_nested c len (fun sub => Any.decode sub fuel)
    Pure.pure ⟨header.tag.number, v⟩
  else DecM.throw ⟨.unexpectedTag none header.tag, none⟩

/-- Modelled from the spec: OBJECT IDENTIFIER decoding — a primitive
universal tag 6 TLV whose raw value bytes are retained (the OID codec is
absent from the sources; §4.1, with the indefinite form under a primitive
tag failing `UnexpectedTag` per §8). -/
def oidDecode (c : Ctx) : DecM (List Nat) := do
  let header ← Header.decode c
  if header.tag = ⟨0, false, 6⟩ then
    match header.length with
    | .definite n => Reader.read_slice c n
    | .indefinite =>
      DecM.throw ⟨.unexpectedTag (some ⟨0, false, 6⟩) header.tag, none⟩
  else DecM.throw ⟨.unexpectedTag (some ⟨0, false, 6⟩) header.tag, none⟩

/-- `cms::ContentInfo` (src `content_info.rs` lines 51–57): the content-type
OID (kept as raw value bytes) and the explicit context-0 wrapped content. -/
structure ContentInfo where
  content_type : List Nat
  content : Any
deriving DecidableEq, Repr

/-- The field-wise closure of `<ContentInfo as DecodeValue>::decode_value`
(src `content_info.rs` lines 69–92): decode the content-type OID via
`reader.decode()`, then a context-specific field; a field whose tag number
is not 0 is dropped to `None` and surfaced as
`Tag::ContextSpecific { number: 0, constructed: false }.value_error()` — a
`Value` error naming context-0. -/
def ContentInfo.decodeFields (sub : Ctx) (fuel : Nat) : DecM ContentInfo := do
  let content_type ← Reader.decode sub (oidDecode sub)
  let field ← ContextSpecificAny.decode sub fuel
  let content ←
    match (if field.tag_number = 0 then some field else none) with
    | some f => Pure.pure f.value
    | none => DecM.throw ⟨.value ⟨2, false, 0⟩, none⟩
  Pure.pure ⟨content_type, content⟩

/-- `<ContentInfo as DecodeValue>::decode_value` (src `content_info.rs`
lines 60–94): resolve the header's length (running the scanner for the
indefinite sentinel) and decode the fields inside a bounded nested
reader. -/
def ContentInfo.decodeValue (c : Ctx) (fuel : Nat) (header : Header) :
    DecM ContentInfo := do
  let length ←
    match header.length with
    | .definite n => Pure.pure n
    | .indefinite => Reader.indefinite_value_length c fuel
  Reader.read_nested c length (fun sub => ContentInfo.decodeFields sub fuel)

/-- Claim C7 counterexample: a `ContentInfo` whose content is wrapped in
context-specific tag number 1 (`A1`) instead of 0: decoding fails — but with
the `Value` error naming context-0 produced by `.value_error()` in
`content_info.rs` line 80–85, not with an `UnexpectedTag` error as the claim
says (second conjunct: the produced kind is not an `UnexpectedTag` at
all). -/
theorem claim_C7_counterexample :
    ContentInfo.decodeValue
        ⟨[0x06, 0x01, 0x2A, 0xA1, 0x03, 0x02, 0x01, 0x05], true⟩ 9
        ⟨Tag.sequenceTag, .definite 8⟩ 0 =
      .err ⟨.value ⟨2, false, 0⟩, none⟩ 8 ∧
    (ErrorKind.value ⟨2, false, 0⟩).isUnexpectedTag = false :=
  ⟨by decide, rfl⟩

/-- Claim C7 as amended: when the content field's context-specific wrapper
carries a tag number other than 0, `ContentInfo` decoding fails — no value
is returned — with the `Value` error naming the context-0 primitive tag
(the tag's `value_error()`), the error carrying no position
(`.into()`). -/
theorem claim_C7_amended_content_wrapper_error (c : Ctx) (fuel : Nat)
    (hdr : Header) (p L : Nat) (ct : List Nat) (p₁ : Nat)
    (field : ContextSpecificAny) (p₂ : Nat)
    (hlen : hdr.length = .definite L)
    (hbound : p + L ≤ c.data.length)
    (hct : Reader.decode ⟨(c.data.drop p).take L, c.ber⟩
      (oidDecode ⟨(c.data.drop p).take L, c.ber⟩) 0 = .ok ct p₁)
    (hcs : ContextSpecificAny.decode ⟨(c.data.drop p).take L, c.ber⟩ fuel p₁ =
      .ok field p₂)
    (hnum : field.tag_number ≠ 0) :
    ContentInfo.decodeValue c fuel hdr p =
      .err ⟨.value ⟨2, false, 0⟩, none⟩ (p + p₂) := by
  have hfields : ContentInfo.decodeFields
      ⟨(c.data.drop p).take L, c.ber⟩ fuel 0 =
      .err ⟨.value ⟨2, false, 0⟩, none⟩ p₂ := by
    unfold ContentInfo.decodeFields
    rw [DecM.bind_eq_of_ok hct]
    rw [DecM.bind_eq_of_ok hcs]
    rw [if_neg hnum]
    rfl
  have hrun : Reader.runNested ⟨(c.data.drop p).take L, c.ber⟩
      (fun sub => ContentInfo.decodeFields sub fuel) =
      .err ⟨.value ⟨2, false, 0⟩, none⟩ p₂ := by
    unfold Reader.runNested
    rw [DecM.bind_eq_of_err hfields]
  unfold ContentInfo.decodeValue
  rw [hlen]
  dsimp only
  rw [DecM.bind_eq_of_ok (DecM.pure_apply L p)]
  unfold Reader.read_nested
  rw [if_pos hbound, hrun]

/-- Witness for the amended C7: wrapper tag number 2 (`A2`) in place of 0. -/
theorem claim_C7_amended_witness :
    ContentInfo.decodeValue
        ⟨[0x06, 0x01, 0x2A, 0xA2, 0x03, 0x02, 0x01, 0x07], true⟩ 9
        ⟨Tag.sequenceTag, .definite 8⟩ 0 =
      .err ⟨.value ⟨2, false, 0⟩, none⟩ (0 + 8) :=
  claim_C7_amended_content_wrapper_error
    ⟨[0x06, 0x01, 0x2A, 0xA2, 0x03, 0x02, 0x01, 0x07], true⟩ 9
    ⟨Tag.sequenceTag, .definite 8⟩ 0 8 [0x2A] 3
    ⟨2, ⟨⟨0, false, 2⟩, [0x07]⟩⟩ 8 rfl (by decide) (by decide) (by decide)
    (by decide)

/-! ## DER emission and the certs-only `ContentInfo` constructors
(claim C8) -/

/-- Modelled from the spec: shortest-form definite length encoding (§4.1:
"Every emitted header uses the shortest valid length form"). -/
def encodeLength (n : Nat) : List Nat :=
  if n ≤ 0x7F then [n]
  else if n ≤ 0xFF then [0x81, n]
  else if n ≤ 0xFFFF then [0x82, n / 256, n % 256]
  else if n ≤ 0xFFFFFF then [0x83, n / 65536, n / 256 % 256, n % 256]
  else [0x84, n / 16777216, n / 65536 % 256, n / 256 % 256, n % 256]

/-- A complete TLV emission: tag bytes, shortest length, value bytes.
(Length overflow beyond `2^32 − 1` is not modelled on the emit side; the
inputs analysed stay far below the implementation maximum.) -/
def encodeTLV (t : Tag) (v : List Nat) : List Nat :=
  t.encodeBytes ++ encodeLength v.length ++ v

/-- `Any`'s emission: the stored tag and value bytes verbatim (spec
§4.4). -/
def Any.encode (a : Any) : List Nat := encodeTLV a.tag a.value

/-- `der::asn1::SetOfVec`: an ordered collection, sorted by encoded bytes on
emit (spec §3). -/
structure SetOfVec (α : Type) where
  elems : List α
deriving DecidableEq, Repr

/-- Modelled from the spec: `SetOfVec::insert` — "Insertion rejects
duplicates (elements compared by their encoded bytes)" (§3), failing with
`DuplicateElement`. -/
def SetOfVec.insert (enc : α → List Nat) (s : SetOfVec α) (x : α) :
    Except Error (SetOfVec α) :=
  if s.elems.any (fun y => decide (enc y = enc x)) then
    .error ⟨.duplicateElement, none⟩
  else .ok ⟨s.elems ++ [x]⟩

/-- Non-strict lexicographic order on encodings. -/
def lexLe (a b : List Nat) : Bool :=
  match lexCompare a b with
  | .gt => false
  | _ => true

/-- Insertion into a list sorted by encoding. -/
def insertSorted (enc : α → List Nat) (x : α) : List α → List α
  | [] => [x]
  | y :: ys =>
    if lexLe (enc x) (enc y) then x :: y :: ys
    else y :: insertSorted enc x ys

/-- Insertion sort by encoding. -/
def sortByEnc (enc : α → List Nat) : List α → List α
  | [] => []
  | x :: xs => insertSorted enc x (sortByEnc enc xs)

/-- Modelled from the spec: SET OF value emission — "elements are sorted in
strictly ascending order by the lexicographic comparison of each element's
full DER-encoded bytes", concatenated (§4.4). -/
def SetOfVec.encodeValue (enc : α → List Nat) (s : SetOfVec α) : List Nat :=
  ((sortByEnc enc s.elems).map enc).flatten

/-- A SET OF emission: the universal constructed tag 17 over the sorted
value. -/
def SetOfVec.encode (enc : α → List Nat) (s : SetOfVec α) : List Nat :=
  encodeTLV ⟨0, true, 17⟩ (s.encodeValue enc)

/-- `CMSVersion` (src `content_info.rs` lines 20–31). -/
inductive CmsVersion where
  | v0 | v1 | v2 | v3 | v4 | v5
deriving DecidableEq, Repr

/-- The INTEGER payload byte of a version. -/
def CmsVersion.toByte : CmsVersion → Nat
  | .v0 => 0
  | .v1 => 1
  | .v2 => 2
  | .v3 => 3
  | .v4 => 4
  | .v5 => 5

/-- A version emits as a one-byte INTEGER (`Enumerated` with
`type = INTEGER`). -/
def CmsVersion.encode (v : CmsVersion) : List Nat :=
  encodeTLV ⟨0, false, 2⟩ [v.toByte]

/-- An `x509` certificate — an external collaborator out of this core's
scope (spec §1) — modelled by its DER encoding bytes. -/
structure Certificate where
  der : List Nat
deriving DecidableEq, Repr

/-- `CertificateChoices` (the `Certificate` alternative used by the
constructors). -/
inductive CertificateChoices where
  | certificate (cert : Certificate)
deriving DecidableEq, Repr

/-- A CHOICE emits its selected alternative's TLV verbatim (spec §4.4);
the `Certificate` alternative is the certificate's own encoding. -/
def CertificateChoices.encode : CertificateChoices → List Nat
  | .certificate cert => cert.der

/-- `CertificateSet ::= SET OF CertificateChoices`
(src `signed_data.rs` lines 167–169). -/
structure CertificateSet where
  set : SetOfVec CertificateChoices
deriving DecidableEq, Repr

/-- An algorithm identifier, opaque here (spec §1: "digest algorithms appear
only as opaque algorithm-identifier structures"): its DER bytes. -/
structure AlgorithmIdentifier where
  der : List Nat
deriving DecidableEq, Repr

/-- A revocation info choice, opaque: its DER bytes. -/
structure RevocationInfoChoice where
  der : List Nat
deriving DecidableEq, Repr

/-- `RevocationInfoChoices ::= SET OF RevocationInfoChoice`. -/
structure RevocationInfoChoices where
  set : SetOfVec RevocationInfoChoice
deriving DecidableEq, Repr

/-- A signer info, opaque for the constructors (always the empty set
there): its DER bytes. -/
structure SignerInfo where
  der : List Nat
deriving DecidableEq, Repr

/-- `SignerInfos ::= SET OF SignerInfo`
(src `signed_data.rs` lines 187–189). -/
structure SignerInfos where
  set : SetOfVec SignerInfo
deriving DecidableEq, Repr

/-- `EncapsulatedContentInfo` (src `signed_data.rs` lines 211–217): the
eContentType OID (raw value bytes) and the optional explicit context-0
eContent. -/
structure EncapsulatedContentInfo where
  econtent_type : List Nat
  econtent : Option Any
deriving DecidableEq, Repr

/-- Field-wise value emission of `EncapsulatedContentInfo` (the derived
`Sequence` impl): OID, then the optional explicit context-0 wrapper (an
absent option emits nothing, spec §4.4). -/
def EncapsulatedContentInfo.encodeValue (e : EncapsulatedContentInfo) :
    List Nat :=
  encodeTLV ⟨0, false, 6⟩ e.econtent_type ++
    (match e.econtent with
     | none => []
     | some a => encodeTLV ⟨2, true, 0⟩ a.encode)

/-- `EncapsulatedContentInfo` emits as a SEQUENCE TLV. -/
def EncapsulatedContentInfo.encode (e : EncapsulatedContentInfo) :
    List Nat :=
  encodeTLV ⟨0, true, 16⟩ e.encodeValue

/-- Modelled from the spec: IMPLICIT context-specific wrapping — "replaces
the inner's tag with the context-specific tag while keeping its
primitive/constructed bit" (§4.4); applied below to SET OF values, which
are constructed. -/
def implicitContext (n : Nat) (value : List Nat) : List Nat :=
  encodeTLV ⟨2, true, n⟩ value

/-- `cms::SignedData` (src `signed_data.rs` lines 31–41). -/
structure SignedData where
  version : CmsVersion
  digest_algorithms : SetOfVec AlgorithmIdentifier
  encap_content_info : EncapsulatedContentInfo
  certificates : Option CertificateSet
  crls : Option RevocationInfoChoices
  signer_infos : SignerInfos
deriving DecidableEq, Repr

/-- `<SignedData as EncodeValue>::encode_value` (src `signed_data.rs` lines
119–146): version, digest algorithms, encapContentInfo, the optional
IMPLICIT context-0 certificates, the optional IMPLICIT context-1 crls, and
the signer infos, in order; absent options emit nothing. -/
def SignedData.encodeValue (sd : SignedData) : List Nat :=
  sd.version.encode ++
  SetOfVec.encode AlgorithmIdentifier.der sd.digest_algorithms ++
  sd.encap_content_info.encode ++
  (match sd.certificates with
   | none => []
   | some cs =>
     implicitContext 0 (SetOfVec.encodeValue CertificateChoices.encode cs.set)) ++
  (match sd.crls with
   | none => []
   | some rs =>
     implicitContext 1 (SetOfVec.encodeValue RevocationInfoChoice.der rs.set)) ++
  SetOfVec.encode SignerInfo.der sd.signer_infos.set

/-- `SignedData::to_der`: the SEQUENCE TLV over the value emission (the
`Encode` blanket impl for `Sequence` types, spec §4.4: "Emitted with a
precomputed value length and the shortest header"). -/
def SignedData.toDer (sd : SignedData) : List Nat :=
  encodeTLV ⟨0, true, 16⟩ sd.encodeValue

/-- `AnyRef::try_from(&[u8])`: decode an `Any` from the whole slice (DER
mode, `is_parsing_ber` off) requiring full consumption. -/
def anyFromDer (bs : List Nat) : Except Error Any :=
  match (Any.decode ⟨bs, false⟩ (bs.length + 1) >>=
      Reader.finish ⟨bs, false⟩) 0 with
  | .ok a _ => .ok a
  | .err e _ => .error e

/-- Insert a list of elements one by one (the `for` loop of
`TryFrom<PkiPath>`). -/
def insertAll (enc : α → List Nat) : List α → SetOfVec α →
    Except Error (SetOfVec α)
  | [], s => .ok s
  | x :: xs, s =>
    match SetOfVec.insert enc s x with
    | .ok s' => insertAll enc xs s'
    | .error e => .error e

/-- The DER value bytes of the `id-data` OID 1.2.840.113549.1.7.1
(`const_oid::db::rfc5911::ID_DATA`). -/
def ID_DATA : List Nat :=
  [0x2A, 0x86, 0x48, 0x86, 0xF7, 0x0D, 0x01, 0x07, 0x01]

/-- The DER value bytes of the `id-signedData` OID 1.2.840.113549.1.7.2
(`const_oid::db::rfc5911::ID_SIGNED_DATA`). -/
def ID_SIGNED_DATA : List Nat :=
  [0x2A, 0x86, 0x48, 0x86, 0xF7, 0x0D, 0x01, 0x07, 0x02]

/-- The `SignedData` record built by both convenience constructors
(src `content_info.rs` lines 135–145 and 168–178): version v1, empty digest
algorithms, `ID_DATA` encapContentInfo without eContent, the supplied
certificates, an explicitly-present empty CRL set, empty signer infos. -/
def certsOnlySignedData (certs : SetOfVec CertificateChoices) : SignedData :=
  { version := .v1
    digest_algorithms := ⟨[]⟩
    encap_content_info := ⟨ID_DATA, none⟩
    certificates := some ⟨certs⟩
    crls := some ⟨⟨[]⟩⟩
    signer_infos := ⟨⟨[]⟩⟩ }

/-- `TryFrom<Certificate> for ContentInfo` (src `content_info.rs` lines
127–155). -/
def ContentInfo.tryFromCertificate (cert : Certificate) :
    Except Error ContentInfo :=
  match SetOfVec.insert CertificateChoices.encode ⟨[]⟩
      (.certificate cert) with
  | .error e => .error e
  | .ok certs =>
    match anyFromDer (certsOnlySignedData certs).toDer with
    | .error e => .error e
    | .ok content => .ok ⟨ID_SIGNED_DATA, content⟩

/-- `TryFrom<PkiPath> for ContentInfo` (src `content_info.rs` lines
158–188). -/
def ContentInfo.tryFromPkiPath (pki_path : List Certificate) :
    Except Error ContentInfo :=
  match insertAll CertificateChoices.encode
      (pki_path.map .certificate) ⟨[]⟩ with
  | .error e => .error e
  | .ok certs =>
    match anyFromDer (certsOnlySignedData certs).toDer with
    | .error e => .error e
    | .ok content => .ok ⟨ID_SIGNED_DATA, content⟩

theorem insertAll_ok_elems (enc : α → List Nat) :
    ∀ (l : List α) (s r : SetOfVec α), insertAll enc l s = .ok r →
      r.elems = s.elems ++ l := by
  intro l
  induction l with
  | nil =>
    intro s r h
    unfold insertAll at h
    injection h with h1
    subst h1
    simp
  | cons x xs ih =>
    intro s r h
    unfold insertAll at h
    split at h
    · rename_i s' hins
      unfold SetOfVec.insert at hins
      split at hins
      · cases hins
      · injection hins with h2
        subst h2
        rw [ih _ _ h]
        simp
    · cases h

/-- Claim C8: each convenience constructor that succeeds produces a
`ContentInfo` whose content type is `id-signedData` and whose content wraps
(is the full-slice `Any` parse of the DER encoding of) a `SignedData` with
version v1, an empty digest-algorithms set, an `EncapsulatedContentInfo` of
`ID_DATA` with no eContent, a certificates field holding exactly the
supplied certificates, an explicitly-present empty CRL set, and an empty
signer-infos set. -/
theorem claim_C8_certs_only_constructors :
    (∀ (cert : Certificate) (ci : ContentInfo),
      ContentInfo.tryFromCertificate cert = .ok ci →
      ci.content_type = ID_SIGNED_DATA ∧
      ∃ sd : SignedData,
        sd.version = .v1 ∧
        sd.digest_algorithms = ⟨[]⟩ ∧
        sd.encap_content_info = ⟨ID_DATA, none⟩ ∧
        sd.certificates = some ⟨⟨[.certificate cert]⟩⟩ ∧
        sd.crls = some ⟨⟨[]⟩⟩ ∧
        sd.signer_infos = ⟨⟨[]⟩⟩ ∧
        anyFromDer sd.toDer = .ok ci.content) ∧
    (∀ (pki_path : List Certificate) (ci : ContentInfo),
      ContentInfo.tryFromPkiPath pki_path = .ok ci →
      ci.content_type = ID_SIGNED_DATA ∧
      ∃ sd : SignedData,
        sd.version = .v1 ∧
        sd.digest_algorithms = ⟨[]⟩ ∧
        sd.encap_content_info = ⟨ID_DATA, none⟩ ∧
        sd.certificates = some ⟨⟨pki_path.map .certificate⟩⟩ ∧
        sd.crls = some ⟨⟨[]⟩⟩ ∧
        sd.signer_infos = ⟨⟨[]⟩⟩ ∧
        anyFromDer sd.toDer = .ok ci.content) := by
  constructor
  · intro cert ci h
    unfold ContentInfo.tryFromCertificate at h
    split at h
    · cases h
    · rename_i certs hins
      unfold SetOfVec.insert at hins
      rw [if_neg (by simp)] at hins
      injection hins with h2
      split at h
      · cases h
      · rename_i content hany
        injection h with h1
        subst h1
        refine ⟨rfl, certsOnlySignedData certs, rfl, rfl, rfl, ?_, rfl, rfl,
          hany⟩
        rw [show (certsOnlySignedData certs).certificates = some ⟨certs⟩
          from rfl, ← h2]
        simp
  · intro pki_path ci h
    unfold ContentInfo.tryFromPkiPath at h
    split at h
    · cases h
    · rename_i certs hins
      have helems := insertAll_ok_elems CertificateChoices.encode _ _ _ hins
      simp only [List.nil_append] at helems
      split at h
      · cases h
      · rename_i content hany
        injection h with h1
        subst h1
        refine ⟨rfl, certsOnlySignedData certs, rfl, rfl, rfl, ?_, rfl, rfl,
          hany⟩
        rw [show (certsOnlySignedData certs).certificates = some ⟨certs⟩
          from rfl]
        obtain ⟨elems⟩ := certs
        simp only at helems
        rw [helems]

/-- The SignedData value bytes emitted for a single two-byte certificate
`30 00`: version 1, empty digest algorithms, `ID_DATA` encapContentInfo,
implicit context-0 certificates, implicit context-1 empty crls, empty
signer infos. -/
def c8ValueBytes : List Nat :=
  [0x02, 0x01, 0x01, 0x31, 0x00, 0x30, 0x0B, 0x06, 0x09, 0x2A, 0x86, 0x48,
   0x86, 0xF7, 0x0D, 0x01, 0x07, 0x01, 0xA0, 0x02, 0x30, 0x00, 0xA1, 0x00,
   0x31, 0x00]

/-- Witness for C8: both constructors on the certificate `30 00`. -/
theorem claim_C8_witness :
    ((ContentInfo.mk ID_SIGNED_DATA
        ⟨⟨0, true, 16⟩, c8ValueBytes⟩).content_type = ID_SIGNED_DATA ∧
      ∃ sd : SignedData,
        sd.version = .v1 ∧
        sd.digest_algorithms = ⟨[]⟩ ∧
        sd.encap_content_info = ⟨ID_DATA, none⟩ ∧
        sd.certificates = some ⟨⟨[.certificate ⟨[0x30, 0x00]⟩]⟩⟩ ∧
        sd.crls = some ⟨⟨[]⟩⟩ ∧
        sd.signer_infos = ⟨⟨[]⟩⟩ ∧
        anyFromDer sd.toDer = .ok (ContentInfo.mk ID_SIGNED_DATA
          ⟨⟨0, true, 16⟩, c8ValueBytes⟩).content) ∧
    ((ContentInfo.mk ID_SIGNED_DATA
        ⟨⟨0, true, 16⟩, c8ValueBytes⟩).content_type = ID_SIGNED_DATA ∧
      ∃ sd : SignedData,
        sd.version = .v1 ∧
        sd.digest_algorithms = ⟨[]⟩ ∧
        sd.encap_content_info = ⟨ID_DATA, none⟩ ∧
        sd.certificates = some
          ⟨⟨[(⟨[0x30, 0x00]⟩ : Certificate)].map .certificate⟩⟩ ∧
        sd.crls = some ⟨⟨[]⟩⟩ ∧
        sd.signer_infos = ⟨⟨[]⟩⟩ ∧
        anyFromDer sd.toDer = .ok (ContentInfo.mk ID_SIGNED_DATA
          ⟨⟨0, true, 16⟩, c8ValueBytes⟩).content) :=
  ⟨claim_C8_certs_only_constructors.1 ⟨[0x30, 0x00]⟩
      ⟨ID_SIGNED_DATA, ⟨⟨0, true, 16⟩, c8ValueBytes⟩⟩ rfl,
   claim_C8_certs_only_constructors.2 [⟨[0x30, 0x00]⟩]
      ⟨ID_SIGNED_DATA, ⟨⟨0, true, 16⟩, c8ValueBytes⟩⟩ rfl⟩
